import Mathlib

/-!
# Verification of the static-site content compiler (`scripts/build-content.mjs`)

This file gives a shallow embedding of the document compiler of the
repository: the HTML escaping helpers, `slugify`, the inline renderer
(`renderInline`), the Markdown structurer (`parseMarkdown`), the block
renderer (`renderBlock`), the table-of-contents and page assembly
(`buildPostHtml`), the corpus collection (`collectPosts`), the post sort,
and the RSS rendering (`renderRss`).

Modelling conventions:
* JavaScript strings are Lean `String`s; we work on `String.data`
  (`List Char`) for the scanning helpers.
* JavaScript whitespace (`\s`, `String.prototype.trim`) is modelled by the
  ASCII whitespace characters (space, tab, newline, carriage return,
  vertical tab, form feed).  Source documents are plain ASCII text, and no
  claim hinges on Unicode whitespace.
* `String.prototype.toLowerCase` is modelled by ASCII lowercasing
  (`Char.toLower`).
* The regex-based passes of `renderInline` are hand-compiled to scanners
  that reproduce the leftmost-match/advance-on-failure semantics of
  `String.prototype.replace` with a global regex; each scanner carries a
  fuel argument (one unit per character of input suffices) so that every
  definition is structural and evaluates by `rfl`/`decide`.
* Mutation in the source (the subsection stack holding aliases into the
  tree under construction) is embedded as an explicit spine of open
  frames; a frame is folded into its parent exactly when the source pops
  it off the stack (at which point its child list can no longer change).
-/

namespace BuildContent

/-- ASCII model of JavaScript `\s` / the characters removed by `trim`. -/
def isWs (c : Char) : Bool :=
  c == ' ' || c == '\t' || c == '\n' || c == '\r' || c == '\x0b' || c == '\x0c'

/-- `String.prototype.trim`, on character lists. -/
def trimChars (cs : List Char) : List Char :=
  ((cs.dropWhile isWs).reverse.dropWhile isWs).reverse

/-- `String.prototype.trim`. -/
def jsTrim (s : String) : String := String.mk (trimChars s.data)

/-- `String.prototype.toLowerCase` (ASCII model). -/
def jsToLower (s : String) : String := String.mk (s.data.map Char.toLower)

/-- Left-to-right non-overlapping replace-all, the semantics of
`String.prototype.replaceAll` (and of `replace` with a global regex whose
pattern is a literal).  Fuel-structural; `input.length` fuel suffices
since every step consumes at least one character (`pat` is nonempty at
every use site). -/
def replaceAllGo : Nat → List Char → List Char → List Char → List Char
  | 0, cs, _, _ => cs
  | fuel + 1, cs, pat, repl =>
    match cs with
    | [] => []
    | c :: rest =>
      if pat.isPrefixOf (c :: rest) then
        repl ++ replaceAllGo fuel ((c :: rest).drop pat.length) pat repl
      else c :: replaceAllGo fuel rest pat repl

/-- `value.replaceAll(pat, repl)` for a nonempty literal pattern. -/
def jsReplaceAll (s pat repl : String) : String :=
  String.mk (replaceAllGo s.data.length s.data pat.data repl.data)

/-- `markdown.replace(/\r\n/g, '\n')`. -/
def normalizeNewlines (s : String) : String := jsReplaceAll s "\r\n" "\n"

/-- `markdown.split('\n')` (JavaScript semantics: `""` splits to `[""]`,
a trailing separator yields a final `""`). -/
def splitNl : List Char → List String
  | [] => [""]
  | c :: rest =>
    if c = '\n' then "" :: splitNl rest
    else
      match splitNl rest with
      | s :: ss => String.mk (c :: s.data) :: ss
      | [] => [String.mk [c]]

/-- `markdown.split('\n')`. -/
def splitLines (s : String) : List String := splitNl s.data

/-- `escapeHtml`: replaces the five HTML-sensitive characters in order
`&`, `<`, `>`, `"`, `'` (source lines 72-79). -/
def escapeHtml (value : String) : String :=
  jsReplaceAll (jsReplaceAll (jsReplaceAll (jsReplaceAll (jsReplaceAll value
    "&" "&amp;") "<" "&lt;") ">" "&gt;") "\"" "&quot;") "'" "&#39;"

/-- `escapeAttr` is `escapeHtml` (source lines 81-83). -/
def escapeAttr (value : String) : String := escapeHtml value

/-- `xmlEscape` (source lines 85-92): like `escapeHtml` but `'` becomes
`&apos;`. -/
def xmlEscape (value : String) : String :=
  jsReplaceAll (jsReplaceAll (jsReplaceAll (jsReplaceAll (jsReplaceAll value
    "&" "&amp;") "<" "&lt;") ">" "&gt;") "\"" "&quot;") "'" "&apos;"

/-- Characters kept by `slugify`'s `replace(/[^a-z0-9\s-]/g, '')`. -/
def slugKeep (c : Char) : Bool :=
  ('a' ≤ c && c ≤ 'z') || ('0' ≤ c && c ≤ '9') || isWs c || c == '-'

/-- `replace(/\s+/g, '-')`: each maximal whitespace run becomes one `-`.
The `inRun` flag records whether the previous character was whitespace. -/
def squashWsToHyphen : List Char → Bool → List Char
  | [], _ => []
  | c :: rest, inRun =>
    if isWs c then
      if inRun then squashWsToHyphen rest true
      else '-' :: squashWsToHyphen rest true
    else c :: squashWsToHyphen rest false

/-- `replace(/[-]+/g, '-')`: collapse runs of hyphens. -/
def squashHyphens : List Char → Bool → List Char
  | [], _ => []
  | c :: rest, inRun =>
    if c == '-' then
      if inRun then squashHyphens rest true
      else '-' :: squashHyphens rest true
    else c :: squashHyphens rest false

/-- `slugify` (source lines 94-101): lowercase, strip characters outside
`[a-z0-9\s-]`, trim, collapse whitespace runs to single hyphens, collapse
hyphen runs. -/
def slugify (value : String) : String :=
  let lowered := value.data.map Char.toLower
  let filtered := lowered.filter slugKeep
  let trimmed := trimChars filtered
  String.mk (squashHyphens (squashWsToHyphen trimmed false) false)

/-- The backtick character (0x60), used by the inline-code regex. -/
def btick : Char := '\x60'

/-- Decimal digit characters to a number, as JavaScript `Number(index)`
on a digit string. -/
def charsToNat (cs : List Char) : Nat :=
  cs.foldl (fun a c => 10 * a + (c.toNat - 48)) 0

/-- Fueled decimal rendering loop; emits most-significant digit first.
Any fuel greater than `n` is sufficient. -/
def natToStringAux : Nat → Nat → List Char → List Char
  | 0, _, acc => acc
  | fuel + 1, n, acc =>
    let c := Char.ofNat (48 + n % 10)
    if n < 10 then c :: acc
    else natToStringAux fuel (n / 10) (c :: acc)

/-- JavaScript number-to-string for naturals (decimal), as used by the
template literals in the source. -/
def natToString (n : Nat) : String := String.mk (natToStringAux (n + 1) n [])

/-- `0`-`9`. -/
def isDigit (c : Char) : Bool := '0' ≤ c && c ≤ '9'

/-! ## Inline renderer (`renderInline`, source lines 137-152)

Each regex pass is compiled to a left-to-right scanner: at each position it
tries the pattern; on success it emits the substitution and resumes after
the match, on failure it copies one character and retries at the next
position — exactly the semantics of `String.prototype.replace` with a
global regex.  The fuel argument only bounds the number of scan steps;
`input.length` is always enough because every step consumes at least one
character. -/

/-- Pass 2 scanner: extract inline code spans into placeholder tokens.
The regex is: a backtick, one or more non-backticks, a backtick.
Returns the text with placeholders, and the collected
`<code>...</code>` snippets in order. -/
def extractCodeGo : Nat → List Char → List String → List Char × List String
  | 0, cs, snips => (cs, snips)
  | fuel + 1, cs, snips =>
    match cs with
    | [] => ([], snips)
    | c :: rest =>
      if c == btick then
        let run := rest.takeWhile (fun d => d ≠ btick)
        let rest1 := rest.dropWhile (fun d => d ≠ btick)
        match run, rest1 with
        | _ :: _, _ :: rest2 =>
          let token := "__CODE_" ++ natToString snips.length ++ "__"
          let snippet := "<code>" ++ String.mk run ++ "</code>"
          let (tail, snips') := extractCodeGo fuel rest2 (snips ++ [snippet])
          (token.data ++ tail, snips')
        | _, _ =>
          let (tail, snips') := extractCodeGo fuel rest snips
          (c :: tail, snips')
      else
        let (tail, snips') := extractCodeGo fuel rest snips
        (c :: tail, snips')

/-- Passes 1-2 of `renderInline`: escape, then extract code spans. -/
def extractCodeSpans (s : String) : String × List String :=
  let (cs, snips) := extractCodeGo s.data.length s.data []
  (String.mk cs, snips)

/-- Scheme matcher for the link regex `https?:\/\/`. -/
def matchScheme (cs : List Char) : Option (List Char × List Char) :=
  if "http://".data.isPrefixOf cs then some ("http://".data, cs.drop 7)
  else if "https://".data.isPrefixOf cs then some ("https://".data, cs.drop 8)
  else none

/-- Characters allowed in the link-target class `[^\s)]`. -/
def hrefChar (c : Char) : Bool := !(isWs c || c == ')')

/-- Pass 3 scanner: `[label](http://target)` / `https://` links.  The label
is one or more non-`]` characters; the target is the scheme followed by one
or more characters outside `[^\s)]`; the target is re-escaped with
`escapeAttr` at substitution time. -/
def linkGo : Nat → List Char → List Char
  | 0, cs => cs
  | fuel + 1, cs =>
    match cs with
    | [] => []
    | c :: rest =>
      if c == '[' then
        let label := rest.takeWhile (fun d => d ≠ ']')
        let rest1 := rest.dropWhile (fun d => d ≠ ']')
        match label, rest1 with
        | _ :: _, _ :: rest2 =>
          match rest2 with
          | '(' :: rest3 =>
            match matchScheme rest3 with
            | some (scheme, rest4) =>
              let run := rest4.takeWhile hrefChar
              let rest5 := rest4.dropWhile hrefChar
              match run, rest5 with
              | _ :: _, ')' :: rest6 =>
                let href := String.mk (scheme ++ run)
                let anchor :=
                  "<a href=\"" ++ escapeAttr href ++ "\">" ++ String.mk label ++ "</a>"
                anchor.data ++ linkGo fuel rest6
              | _, _ => c :: linkGo fuel rest
            | none => c :: linkGo fuel rest
          | _ => c :: linkGo fuel rest
        | _, _ => c :: linkGo fuel rest
      else c :: linkGo fuel rest

/-- Pass 3 of `renderInline`. -/
def linkPass (s : String) : String := String.mk (linkGo s.data.length s.data)

/-- Pass 4 scanner: `**bold**` (two stars, one or more non-`*`, two
stars). -/
def boldGo : Nat → List Char → List Char
  | 0, cs => cs
  | fuel + 1, cs =>
    match cs with
    | [] => []
    | c :: rest =>
      if c == '*' then
        match rest with
        | '*' :: rest2 =>
          let run := rest2.takeWhile (fun d => d ≠ '*')
          let rest3 := rest2.dropWhile (fun d => d ≠ '*')
          match run, rest3 with
          | _ :: _, '*' :: '*' :: rest4 =>
            ("<strong>" ++ String.mk run ++ "</strong>").data ++ boldGo fuel rest4
          | _, _ => c :: boldGo fuel rest
        | _ => c :: boldGo fuel rest
      else c :: boldGo fuel rest

/-- Pass 4 of `renderInline`. -/
def boldPass (s : String) : String := String.mk (boldGo s.data.length s.data)

/-- Pass 5 scanner: `*italic*` (a star, one or more non-`*`, a star). -/
def italicGo : Nat → List Char → List Char
  | 0, cs => cs
  | fuel + 1, cs =>
    match cs with
    | [] => []
    | c :: rest =>
      if c == '*' then
        let run := rest.takeWhile (fun d => d ≠ '*')
        let rest1 := rest.dropWhile (fun d => d ≠ '*')
        match run, rest1 with
        | _ :: _, _ :: rest2 =>
          ("<em>" ++ String.mk run ++ "</em>").data ++ italicGo fuel rest2
        | _, _ => c :: italicGo fuel rest
      else c :: italicGo fuel rest

/-- Pass 5 of `renderInline`. -/
def italicPass (s : String) : String := String.mk (italicGo s.data.length s.data)

/-- Pass 6 scanner: restore `__CODE_<n>__` placeholders; an out-of-range
index yields the empty string (`codeSnippets[Number(index)] || ''`). -/
def restoreGo (snips : List String) : Nat → List Char → List Char
  | 0, cs => cs
  | fuel + 1, cs =>
    match cs with
    | [] => []
    | c :: rest =>
      if "__CODE_".data.isPrefixOf (c :: rest) then
        let afterTag := (c :: rest).drop 7
        let digits := afterTag.takeWhile isDigit
        let rest1 := afterTag.dropWhile isDigit
        match digits, rest1 with
        | _ :: _, '_' :: '_' :: rest2 =>
          (snips.getD (charsToNat digits) "").data ++ restoreGo snips fuel rest2
        | _, _ => c :: restoreGo snips fuel rest
      else c :: restoreGo snips fuel rest

/-- Pass 6 of `renderInline`. -/
def restorePass (snips : List String) (s : String) : String :=
  String.mk (restoreGo snips s.data.length s.data)

/-- `renderInline` (source lines 137-152): escape, extract code spans,
links, bold, italic, restore code spans. -/
def renderInline (raw : String) : String :=
  let (escaped, codeSnippets) := extractCodeSpans (escapeHtml raw)
  let withLinks := linkPass escaped
  let withBold := boldPass withLinks
  let withItalic := italicPass withBold
  restorePass codeSnippets withItalic

/-! ## Markdown structurer (`parseMarkdown`, source lines 154-304) -/

/-- `normalizeChapterTitle` (source lines 154-156):
`title.replace(/^\d+\.\s+/, '').trim()`. -/
def stripOrdinalPrefix (cs : List Char) : List Char :=
  let ds := cs.takeWhile isDigit
  let rest := cs.dropWhile isDigit
  match ds, rest with
  | _ :: _, '.' :: rest1 =>
    let wsRun := rest1.takeWhile isWs
    match wsRun with
    | _ :: _ => rest1.dropWhile isWs
    | [] => cs
  | _, _ => cs

/-- `normalizeChapterTitle`. -/
def normalizeChapterTitle (title : String) : String :=
  jsTrim (String.mk (stripOrdinalPrefix title.data))

/-- Match `/^(#{1,6})\s+(.+)$/` against a (trimmed) line, returning the
heading level and the trimmed heading text. -/
def parseHeading (line : String) : Option (Nat × String) :=
  let cs := line.data
  let hashes := cs.takeWhile (fun c => c == '#')
  let rest := cs.dropWhile (fun c => c == '#')
  if 1 ≤ hashes.length && hashes.length ≤ 6 then
    match rest.takeWhile isWs, rest.dropWhile isWs with
    | _ :: _, text@(_ :: _) => some (hashes.length, jsTrim (String.mk text))
    | _, _ => none
  else none

/-- Boundary pattern `/^#{1,6}\s+/`. -/
def isHeadingStart (line : String) : Bool :=
  let cs := line.data
  let hashes := cs.takeWhile (fun c => c == '#')
  let rest := cs.dropWhile (fun c => c == '#')
  (1 ≤ hashes.length && hashes.length ≤ 6) && (rest.takeWhile isWs).length ≥ 1

/-- Boundary pattern `/^-\s+/` (unordered list item). -/
def isUlStart (line : String) : Bool :=
  match line.data with
  | '-' :: c :: _ => isWs c
  | _ => false

/-- Boundary pattern `/^\d+\.\s+/` (ordered list item). -/
def isOlStart (line : String) : Bool :=
  let cs := line.data
  let ds := cs.takeWhile isDigit
  match ds, cs.dropWhile isDigit with
  | _ :: _, '.' :: c :: _ => isWs c
  | _, _ => false

/-- Boundary pattern `/^>\s?/` (blockquote). -/
def isQuoteStart (line : String) : Bool :=
  match line.data with
  | '>' :: _ => true
  | _ => false

/-- Boundary pattern `/^```/` (code fence; three backticks). -/
def isFenceStart (line : String) : Bool :=
  match line.data with
  | a :: b :: c :: _ => a == btick && b == btick && c == btick
  | _ => false

/-- `isBoundary` (source lines 186-194). -/
def isBoundary (line : String) : Bool :=
  isHeadingStart line || isUlStart line || isOlStart line || isQuoteStart line ||
    isFenceStart line

/-- `line.replace(/^-\s+/, '')` for a line known to match `isUlStart`. -/
def stripUlMarker (line : String) : String :=
  match line.data with
  | '-' :: rest => String.mk (rest.dropWhile isWs)
  | cs => String.mk cs

/-- `line.replace(/^\d+\.\s+/, '')` for a line matching `isOlStart`. -/
def stripOlMarker (line : String) : String :=
  let cs := line.data
  match cs.dropWhile isDigit with
  | '.' :: rest => String.mk (rest.dropWhile isWs)
  | _ => String.mk cs

/-- `line.replace(/^>\s?/, '')` for a line matching `isQuoteStart`:
drop the `>` and at most one whitespace character. -/
def stripQuoteMarker (line : String) : String :=
  match line.data with
  | '>' :: c :: rest => if isWs c then String.mk rest else String.mk (c :: rest)
  | '>' :: [] => ""
  | cs => String.mk cs

/-- `line.replace(/^```/, '')` for a fence line: drop the three
backticks. -/
def stripFenceMarker (line : String) : String := String.mk (line.data.drop 3)

/-- Content blocks (source `pushBlock` payloads). -/
inductive Block where
  | p (text : String)
  | heading (level : Nat) (text : String) (id : String)
  | ul (items : List String)
  | ol (items : List String)
  | blockquote (text : String)
  | code (lang : String) (code : String)
deriving DecidableEq, Repr

mutual
/-- A subsection node in a chapter's subsection tree.  (The child list is
a `SubForest` rather than a `List Subsection` so that every recursive
definition over the tree is structural, hence executable and
kernel-reducible.) -/
inductive Subsection where
  | mk (id : String) (level : Nat) (title : String) (children : SubForest)

/-- A list of subsections. -/
inductive SubForest where
  | nil
  | cons (s : Subsection) (rest : SubForest)
end

/-- Anchor id of a subsection. -/
def Subsection.id : Subsection → String
  | .mk i _ _ _ => i

/-- Heading level of a subsection. -/
def Subsection.level : Subsection → Nat
  | .mk _ l _ _ => l

/-- Title of a subsection. -/
def Subsection.title : Subsection → String
  | .mk _ _ t _ => t

/-- Children of a subsection. -/
def Subsection.children : Subsection → SubForest
  | .mk _ _ _ c => c

/-- Convert a list of subsections to a `SubForest`. -/
def SubForest.ofList : List Subsection → SubForest
  | [] => .nil
  | s :: rest => .cons s (SubForest.ofList rest)

/-- A chapter (created at each level-2 heading). -/
structure Chapter where
  title : String
  id : String
  blocks : List Block
  subsections : List Subsection

/-- The result of `parseMarkdown`. -/
structure Outline where
  introBlocks : List Block
  chapters : List Chapter

/-- The candidate ids tried by `uniqueId`'s collision loop, in order:
`base`, `base-2`, `base-3`, ...  `bound` candidates beyond `base` are
listed; `used.length + 1` of them always contain a fresh one. -/
def candidateIds (base : String) (bound : Nat) : List String :=
  base :: (List.range bound).map (fun k => base ++ "-" ++ natToString (k + 2))

/-- `uniqueId` (source lines 166-176): the base is
`prefix + '-' + (slugify(text) || fallback)`; on collision append `-2`,
`-3`, ... until unused.  The source's `while` loop returns the first
candidate not in `usedIds`; since the candidates are pairwise distinct, it
terminates within `usedIds.size + 2` attempts, so searching that many
candidates is an exact model. -/
def uniqueIdFrom (used : List String) (pref text fallback : String) : String :=
  let slug := slugify text
  let base := pref ++ "-" ++ (if slug = "" then fallback else slug)
  ((candidateIds base (used.length + 1)).find? (fun c => !used.contains c)).getD base

/-- An open subsection: still on the stack, so its child list can still
grow.  `children` holds the finalized children collected so far. -/
structure Frame where
  id : String
  level : Nat
  title : String
  children : List Subsection

/-- Finalize an open frame into a `Subsection`. -/
def closeFrame (f : Frame) : Subsection :=
  .mk f.id f.level f.title (SubForest.ofList f.children)

/-- The chapter currently receiving blocks (`activeChapter` in the
source), with its subsection stack.  `stack` is top-first: its head is
the most recently pushed open subsection. -/
structure ActiveChapter where
  title : String
  id : String
  blocks : List Block
  subs : List Subsection
  stack : List Frame

/-- Fold an already-closed subsection into the next frame down, then keep
popping frames whose level is `≥ level` (the body of the source's `while`
loop at lines 224-226, expressed on the explicit spine). -/
def popCarry (level : Nat) : Subsection → List Frame → List Subsection →
    List Frame × List Subsection
  | s, [], subs => ([], subs ++ [s])
  | s, g :: rest, subs =>
    if level ≤ g.level then
      popCarry level (closeFrame { g with children := g.children ++ [s] }) rest subs
    else ({ g with children := g.children ++ [s] } :: rest, subs)

/-- Pop the stack while its top has level `≥ level`
(source lines 224-226).  Returns the new stack and the chapter's
top-level subsection list. -/
def popGE (level : Nat) (stack : List Frame) (subs : List Subsection) :
    List Frame × List Subsection :=
  match stack with
  | [] => ([], subs)
  | f :: rest =>
    if level ≤ f.level then popCarry level (closeFrame f) rest subs
    else (stack, subs)

/-- Finalize the whole spine when a chapter is closed (in the source the
tree is already attached through mutation; here the remaining open frames
are folded into their parents). -/
def collapseCarry : Subsection → List Frame → List Subsection → List Subsection
  | s, [], subs => subs ++ [s]
  | s, g :: rest, subs =>
    collapseCarry (closeFrame { g with children := g.children ++ [s] }) rest subs

/-- Finalize an entire stack into the chapter's subsection list. -/
def collapseAll (stack : List Frame) (subs : List Subsection) : List Subsection :=
  match stack with
  | [] => subs
  | f :: rest => collapseCarry (closeFrame f) rest subs

/-- Close the active chapter into a `Chapter` value. -/
def closeActive (a : ActiveChapter) : Chapter :=
  { title := a.title, id := a.id, blocks := a.blocks,
    subsections := collapseAll a.stack a.subs }

/-- Parser state: intro blocks, finished chapters, the active chapter,
and the per-document used-id registry (insertion order kept; only
membership matters, matching the source's `Set`). -/
structure PState where
  intro : List Block
  closed : List Chapter
  active : Option ActiveChapter
  used : List String

/-- Number of chapters created so far (`chapters.length` in the source:
closed chapters plus the active one). -/
def chapterCount (st : PState) : Nat :=
  st.closed.length + (match st.active with | some _ => 1 | none => 0)

/-- `pushBlock` (source lines 178-184). -/
def pushBlockSt (b : Block) (st : PState) : PState :=
  match st.active with
  | some a => { st with active := some { a with blocks := a.blocks ++ [b] } }
  | none => { st with intro := st.intro ++ [b] }

/-- Inner loop of the code-fence branch (source lines 245-253): collect
raw lines until a line whose trim starts a fence; the closing fence line
is consumed.  Returns (code lines, remaining lines, lines consumed). -/
def scanCode : List String → List String × List String × Nat
  | [] => ([], [], 0)
  | l :: rest =>
    if isFenceStart (jsTrim l) then ([], rest, 1)
    else
      let (cs, r, n) := scanCode rest
      (l :: cs, r, n + 1)

/-- Inner loop of the two list branches (source lines 258-275): collect
contiguous matching lines, stripped of their markers. -/
def scanItems (matchFn : String → Bool) (strip : String → String) :
    List String → List String × List String × Nat
  | [] => ([], [], 0)
  | l :: rest =>
    if matchFn (jsTrim l) then
      let (is, r, n) := scanItems matchFn strip rest
      (strip (jsTrim l) :: is, r, n + 1)
    else ([], l :: rest, 0)

/-- Inner loop of the paragraph branch (source lines 289-299): absorb
subsequent lines until a blank line (consumed) or a boundary line (not
consumed). -/
def scanPara : List String → List String × List String × Nat
  | [] => ([], [], 0)
  | l :: rest =>
    let cur := jsTrim l
    if cur = "" then ([], rest, 1)
    else if isBoundary cur then ([], l :: rest, 0)
    else
      let (ps, r, n) := scanPara rest
      (cur :: ps, r, n + 1)

/-- The state transformation of a level-2 heading (source lines
209-219): close the active chapter into the finished list, open a new
active chapter, register its id. -/
def newChapterState (st : PState) (title id : String) : PState :=
  { intro := st.intro,
    closed := st.closed ++
      (match st.active with | some a => [closeActive a] | none => []),
    active := some ⟨title, id, [], [], []⟩,
    used := st.used ++ [id] }

/-- The subsection insertion of a level-≥3 heading inside an active
chapter (source lines 222-234): pop the stack, attach, push the new open
frame. -/
def attachSubsection (a : ActiveChapter) (id : String) (level : Nat) (text : String) :
    ActiveChapter :=
  let (stack1, subs1) := popGE level a.stack a.subs
  { a with
    subs := subs1,
    stack := (⟨id, level, text, []⟩ : Frame) :: stack1 }

/-- The full state transformation of a non-level-2 heading (source lines
220-237): insert into the subsection tree when a chapter is active and
the level is ≥ 3, register the id, and emit the heading block. -/
def sectionHeadingState (st : PState) (level : Nat) (text id : String) : PState :=
  let st1 :=
    match st.active with
    | some a =>
      if 3 ≤ level then { st with active := some (attachSubsection a id level text) }
      else st
    | none => st
  pushBlockSt (.heading level text id) { st1 with used := st1.used ++ [id] }

/-- The main loop of `parseMarkdown` (source lines 196-301).  `pos` is the
index of the head of `rest` in the original line array (the source's `i`);
one unit of fuel per outer iteration, so `lines.length` fuel suffices. -/
def parseLines : Nat → List String → Nat → PState → PState
  | 0, _, _, st => st
  | fuel + 1, lines, pos, st =>
    match lines with
    | [] => st
    | l :: rest =>
      let line := jsTrim l
      if line = "" then parseLines fuel rest (pos + 1) st
      else
        match parseHeading line with
        | some (level, text) =>
          if level = 2 then
            let title := normalizeChapterTitle text
            let count := chapterCount st + 1
            let id := uniqueIdFrom st.used ("chapter-" ++ natToString count) title
              (natToString count)
            parseLines fuel rest (pos + 1) (newChapterState st title id)
          else
            let id := uniqueIdFrom st.used "section" text (natToString (pos + 1))
            parseLines fuel rest (pos + 1) (sectionHeadingState st level text id)
        | none =>
          if isFenceStart line then
            let lang := jsToLower (jsTrim (stripFenceMarker line))
            let (codeLines, rest', consumed) := scanCode rest
            parseLines fuel rest' (pos + 1 + consumed)
              (pushBlockSt (.code lang (String.intercalate "\n" codeLines)) st)
          else if isUlStart line then
            let (items, rest', consumed) := scanItems isUlStart stripUlMarker (l :: rest)
            parseLines fuel rest' (pos + consumed) (pushBlockSt (.ul items) st)
          else if isOlStart line then
            let (items, rest', consumed) := scanItems isOlStart stripOlMarker (l :: rest)
            parseLines fuel rest' (pos + consumed) (pushBlockSt (.ol items) st)
          else if isQuoteStart line then
            let (items, rest', consumed) :=
              scanItems isQuoteStart stripQuoteMarker (l :: rest)
            parseLines fuel rest' (pos + consumed)
              (pushBlockSt (.blockquote (String.intercalate " " items)) st)
          else
            let (paras, rest', consumed) := scanPara rest
            parseLines fuel rest' (pos + 1 + consumed)
              (pushBlockSt (.p (String.intercalate " " (line :: paras))) st)

/-- `parseMarkdown` (source lines 158-304). -/
def parseMarkdown (markdown : String) : Outline :=
  let lines := splitLines (normalizeNewlines markdown)
  let st := parseLines lines.length lines 0 ⟨[], [], none, []⟩
  { introBlocks := st.intro,
    chapters := st.closed ++
      (match st.active with | some a => [closeActive a] | none => []) }

/-! ## Block renderer (`renderBlock`, source lines 306-330) -/

/-- `renderBlock`: one HTML fragment per block.  The heading tag level is
clamped to 1..4 (`Math.min(Math.max(block.level, 1), 4)`), while the `id`
attribute keeps the assigned anchor id. -/
def renderBlock (block : Block) : String :=
  match block with
  | .p text => "<p>" ++ renderInline text ++ "</p>"
  | .heading lvl text id =>
    let level := min (max lvl 1) 4
    "<h" ++ natToString level ++ " id=\"" ++ escapeAttr id ++ "\">" ++
      renderInline text ++ "</h" ++ natToString level ++ ">"
  | .ul items =>
    "<ul>" ++ String.join (items.map (fun i => "<li>" ++ renderInline i ++ "</li>")) ++
      "</ul>"
  | .ol items =>
    "<ol>" ++ String.join (items.map (fun i => "<li>" ++ renderInline i ++ "</li>")) ++
      "</ol>"
  | .blockquote text => "<blockquote><p>" ++ renderInline text ++ "</p></blockquote>"
  | .code lang code =>
    let langClass :=
      if lang = "" then "" else " class=\"language-" ++ escapeAttr lang ++ "\""
    "<pre><code" ++ langClass ++ ">" ++ escapeHtml code ++ "</code></pre>"

/-! ## Page assembly (`buildPostHtml`, source lines 332-467) -/

/-- Per-document metadata record (the `post` object of `collectPosts`). -/
structure Post where
  title : String
  date : String
  prettyDate : String
  description : String
  category : String
  categorySlug : String
  slug : String
  urlPath : String
  numberChapters : Bool
  showContents : Bool
deriving DecidableEq, Repr

/-- Site configuration (`site.config.json`), with `""` standing for an
absent field (both are falsy to the `||` defaults in the source). -/
structure Config where
  siteTitle : String
  siteUrl : String
  siteDescription : String
deriving DecidableEq, Repr

/-- Opening `<ol>` line emitted by `renderTocSubsections` at a given
depth. -/
def tocOlOpen (depth : Nat) : String :=
  "              <ol class=\"toc-sub depth-" ++ natToString depth ++ "\">"

/-- Closing `</ol>` line emitted by `renderTocSubsections`. -/
def tocOlClose : String := "              </ol>"

/-- The `<li>` lines emitted by the `nodes.forEach` of
`renderTocSubsections` (source lines 356-363): the recursive call on a
nonempty child list is pushed as a single (multi-line) element with
depth + 1. -/
def tocEntries : SubForest → Nat → List String
  | .nil, _ => []
  | .cons (.mk id lvl title children) rest, depth =>
    ["                <li class=\"toc-sub-item level-" ++
        natToString (min lvl 6) ++ "\">",
     "                  <a href=\"#" ++ escapeAttr id ++ "\">" ++
        renderInline title ++ "</a>"] ++
    (match children with
     | .nil => []
     | .cons c cs =>
       [String.intercalate "\n"
         (tocOlOpen (depth + 1) :: tocEntries (.cons c cs) (depth + 1) ++ [tocOlClose])]) ++
    ["                </li>"] ++ tocEntries rest depth

/-- `renderTocSubsections` (source lines 351-366): `''` on an empty
forest, otherwise one `<ol class="toc-sub depth-d">` wrapping the node
entries. -/
def renderTocSubsections (nodes : List Subsection) (depth : Nat) : String :=
  match SubForest.ofList nodes with
  | .nil => ""
  | f => String.intercalate "\n" (tocOlOpen depth :: tocEntries f depth ++ [tocOlClose])

/-- The table-of-contents entry list (`tocHtml`, source lines 368-386):
one `<li>` per chapter, or a single "No chapters" entry. -/
def tocHtml (post : Post) (chapters : List Chapter) : String :=
  match chapters with
  | [] => "            <li><a href=\"#\">No chapters</a></li>"
  | _ =>
    String.intercalate "\n" ((chapters.enum).map (fun (idx, chapter) =>
      let subsections := renderTocSubsections chapter.subsections 1
      let chapterLabel :=
        if post.numberChapters then
          natToString (idx + 1) ++ ". " ++ renderInline chapter.title
        else renderInline chapter.title
      String.intercalate "\n"
        (["            <li>",
          "              <a href=\"#" ++ escapeAttr chapter.id ++ "\">" ++
            chapterLabel ++ "</a>"] ++
         (if subsections = "" then [] else [subsections]) ++
         ["            </li>"])))

/-- The fixed markup of the TOC aside before the entry list. -/
def tocAsideOpen : String :=
  "\n        <aside class=\"toc open\" aria-label=\"Table of contents\">\n" ++
  "          <button class=\"toc-toggle\" type=\"button\" aria-expanded=\"true\"" ++
  " aria-controls=\"toc-list\" aria-label=\"Toggle contents\">\n" ++
  "            <span class=\"toc-toggle-icon\" aria-hidden=\"true\"></span>\n" ++
  "          </button>\n" ++
  "          <div class=\"toc-panel\" id=\"toc-list\">\n" ++
  "            <h2>Contents</h2>\n" ++
  "            <ol class=\"toc-list\">\n"

/-- The fixed markup of the TOC aside after the entry list. -/
def tocAsideClose : String :=
  "\n            </ol>\n          </div>\n        </aside>"

/-- The optional TOC aside (`tocAsideHtml`, source lines 388-401): present
iff `showContents`. -/
def tocAsideHtml (post : Post) (toc : String) : String :=
  if post.showContents then tocAsideOpen ++ toc ++ tocAsideClose
  else ""

/-- The per-chapter `<section>` markup of `buildPostHtml`
(source lines 336-349); empty block lists drop their line
(`filter(Boolean)`). -/
def chapterSectionHtml (post : Post) (idx : Nat) (chapter : Chapter) : String :=
  let blocksHtml := String.intercalate "\n            " (chapter.blocks.map renderBlock)
  let chapterHeading :=
    if post.numberChapters then natToString (idx + 1) ++ ". " ++ renderInline chapter.title
    else renderInline chapter.title
  String.intercalate "\n"
    (["          <section id=\"" ++ escapeAttr chapter.id ++ "\" class=\"chapter\">",
      "            <h2>" ++ chapterHeading ++ "</h2>"] ++
     (if blocksHtml = "" then [] else ["            " ++ blocksHtml]) ++
     ["          </section>"])

/-- The inline theme-bootstrap script of the page template
(source lines 414-430; `\x7b`/`\x7d` are the literal braces). -/
def themeBootstrapScript : String :=
  "    <script>\n" ++
  "      (function () \x7b\n" ++
  "        var theme = 'light';\n" ++
  "        try \x7b\n" ++
  "          var saved = localStorage.getItem('theme');\n" ++
  "          if (saved === 'light' || saved === 'dark') \x7b\n" ++
  "            theme = saved;\n" ++
  "          \x7d else if (window.matchMedia('(prefers-color-scheme: dark)').matches) \x7b\n" ++
  "            theme = 'dark';\n" ++
  "          \x7d\n" ++
  "        \x7d catch (_error) \x7b\x7d\n" ++
  "        var root = document.documentElement;\n" ++
  "        root.setAttribute('data-theme', theme);\n" ++
  "        root.style.backgroundColor = theme === 'dark' ? '#151515' : '#f2f0e8';\n" ++
  "        root.style.colorScheme = theme;\n" ++
  "      \x7d)();\n" ++
  "    </script>\n"

/-- The page template before the TOC aside (source lines 403-452). -/
def pageBefore (post : Post) (config : Config) : String :=
  "<!doctype html>\n" ++
  "<html lang=\"en\">\n" ++
  "  <head>\n" ++
  "    <meta charset=\"UTF-8\" />\n" ++
  "    <meta name=\"viewport\" content=\"width=device-width, initial-scale=1.0\" />\n" ++
  "    <title>" ++ escapeHtml post.title ++ " | " ++
    escapeHtml (if config.siteTitle = "" then "Site" else config.siteTitle) ++
    "</title>\n" ++
  "    <meta\n" ++
  "      name=\"description\"\n" ++
  "      content=\"" ++ escapeAttr post.description ++ "\"\n" ++
  "    />\n" ++
  "    <meta name=\"color-scheme\" content=\"light dark\" />\n" ++
  themeBootstrapScript ++
  "    <link rel=\"preconnect\" href=\"https://fonts.googleapis.com\" />\n" ++
  "    <link rel=\"preconnect\" href=\"https://fonts.gstatic.com\" crossorigin />\n" ++
  "    <link\n" ++
  "      href=\"https://fonts.googleapis.com/css2?family=Newsreader:opsz,wght@6..72,300;" ++
    "6..72,400;6..72,500;6..72,700&family=IBM+Plex+Sans:wght@400;500;600&display=swap\"\n" ++
  "      rel=\"stylesheet\"\n" ++
  "    />\n" ++
  "    <link rel=\"stylesheet\" href=\"../../styles.css\" />\n" ++
  "  </head>\n" ++
  "  <body class=\"page-essay\">\n" ++
  "    <div class=\"grain\" aria-hidden=\"true\"></div>\n" ++
  "    <div class=\"essay-shell\">\n" ++
  "      <header class=\"essay-header\">\n" ++
  "        <div class=\"essay-meta-row\">\n" ++
  "          <a class=\"home-link\" href=\"../../\">" ++
    escapeHtml (if config.siteTitle = "" then "Home" else config.siteTitle) ++
    "</a>\n" ++
  "          <button id=\"theme-toggle\" class=\"theme-toggle\" type=\"button\"" ++
    " aria-label=\"Toggle color theme\" aria-pressed=\"false\"></button>\n" ++
  "        </div>\n" ++
  "        <h1>" ++ renderInline post.title ++ "</h1>\n" ++
  "        <p class=\"dek\">" ++ renderInline post.description ++ "</p>\n" ++
  "        <p class=\"meta\">" ++ escapeHtml post.prettyDate ++ "</p>\n" ++
  "      </header>\n" ++
  "\n" ++
  "      <div class=\"essay-layout\">\n"

/-- The page template after the TOC aside (source lines 453-466). -/
def pageAfter (introHtml chapterHtml : String) : String :=
  "\n" ++
  "\n" ++
  "        <article class=\"essay-content\">\n" ++
  "          " ++ introHtml ++ "\n" ++
  "\n" ++
  chapterHtml ++ "\n" ++
  "        </article>\n" ++
  "      </div>\n" ++
  "    </div>\n" ++
  "    <script src=\"../../theme.js\" defer></script>\n" ++
  "    <script src=\"../../script.js\" defer></script>\n" ++
  "  </body>\n" ++
  "</html>\n"

/-- `buildPostHtml` (source lines 332-467): full page document — the part
before the aside, the optional aside, and the article body. -/
def buildPostHtml (post : Post) (config : Config) (markdown : String) : String :=
  let parsed := parseMarkdown markdown
  let introHtml := String.intercalate "\n          " (parsed.introBlocks.map renderBlock)
  let chapterHtml := String.intercalate "\n\n"
    ((parsed.chapters.enum).map (fun (idx, c) => chapterSectionHtml post idx c))
  let toc := tocHtml post parsed.chapters
  pageBefore post config ++ tocAsideHtml post toc ++
    pageAfter introHtml chapterHtml

/-! ## Dates

The source treats dates as `new Date(`${date}T00:00:00Z`)`.  We model the
ECMA-262 Date-Time-String parse restricted to ISO calendar dates
`YYYY-MM-DD` (the only format the compiler accepts — anything else is
rejected by the `Number.isNaN(Date.parse(...))` guard before use), and
epoch arithmetic through the standard civil-from-days algorithm. -/

/-- Gregorian leap year. -/
def isLeap (y : Nat) : Bool := (y % 4 == 0 && y % 100 != 0) || y % 400 == 0

/-- Days in a month. -/
def daysInMonth (y m : Nat) : Nat :=
  if m = 2 then (if isLeap y then 29 else 28)
  else if m = 4 || m = 6 || m = 9 || m = 11 then 30
  else 31

/-- Parse a strict `YYYY-MM-DD` calendar date. -/
def parseIsoDate (s : String) : Option (Nat × Nat × Nat) :=
  match s.data with
  | [a, b, c, d, s1, e, f, s2, g, h] =>
    if isDigit a && isDigit b && isDigit c && isDigit d && s1 == '-' &&
        isDigit e && isDigit f && s2 == '-' && isDigit g && isDigit h then
      let y := charsToNat [a, b, c, d]
      let m := charsToNat [e, f]
      let day := charsToNat [g, h]
      if 1 ≤ m && m ≤ 12 && 1 ≤ day && day ≤ daysInMonth y m then some (y, m, day)
      else none
    else none
  | _ => none

/-- Days since the Unix epoch of a civil date (valid for `y ≥ 1`). -/
def civilDays (y m d : Nat) : Int :=
  let y' := if m ≤ 2 then y - 1 else y
  let era := y' / 400
  let yoe := y' % 400
  let mp := (m + 9) % 12
  let doy := (153 * mp + 2) / 5 + d - 1
  let doe := yoe * 365 + yoe / 4 - yoe / 100 + doy
  (era * 146097 + doe : Int) - 719468

/-- `new Date(`${date}T00:00:00Z`).getTime()` for a valid ISO date
(`0` for the invalid dates that the compiler rejects before use). -/
def dateMillis (s : String) : Int :=
  match parseIsoDate s with
  | some (y, m, d) => civilDays y m d * 86400000
  | none => 0

/-- Full month name (`Intl.DateTimeFormat('en-US', { month: 'long' })`). -/
def monthLongName : Nat → String
  | 1 => "January" | 2 => "February" | 3 => "March" | 4 => "April"
  | 5 => "May" | 6 => "June" | 7 => "July" | 8 => "August"
  | 9 => "September" | 10 => "October" | 11 => "November" | _ => "December"

/-- Abbreviated month name used by `Date.prototype.toUTCString`. -/
def monthShortName : Nat → String
  | 1 => "Jan" | 2 => "Feb" | 3 => "Mar" | 4 => "Apr" | 5 => "May" | 6 => "Jun"
  | 7 => "Jul" | 8 => "Aug" | 9 => "Sep" | 10 => "Oct" | 11 => "Nov" | _ => "Dec"

/-- Abbreviated weekday name used by `Date.prototype.toUTCString`;
index 0 is Sunday. -/
def weekdayShortName : Nat → String
  | 0 => "Sun" | 1 => "Mon" | 2 => "Tue" | 3 => "Wed" | 4 => "Thu" | 5 => "Fri"
  | _ => "Sat"

/-- Two-digit zero-padded number. -/
def pad2 (n : Nat) : String :=
  if n < 10 then "0" ++ natToString n else natToString n

/-- `toPrettyDate` (source lines 28-36): en-US long format,
e.g. `February 1, 2026`. -/
def toPrettyDate (isoDate : String) : String :=
  match parseIsoDate isoDate with
  | some (y, m, d) => monthLongName m ++ " " ++ natToString d ++ ", " ++ natToString y
  | none => ""

/-- `toRfc822Date` (source lines 38-40): `Date.prototype.toUTCString`,
e.g. `Sun, 01 Feb 2026 00:00:00 GMT` (1970-01-01 was a Thursday). -/
def toRfc822Date (isoDate : String) : String :=
  match parseIsoDate isoDate with
  | some (y, m, d) =>
    let wd := ((civilDays y m d + 4) % 7).toNat
    weekdayShortName wd ++ ", " ++ pad2 d ++ " " ++ monthShortName m ++ " " ++
      natToString y ++ " 00:00:00 GMT"
  | none => "Invalid Date"

/-! ## Post sort and RSS (source lines 541-542, 567-597) -/

/-- Insert a post into a date-descending sorted list, before any existing
entry whose date is not strictly larger.  Folding this over the list from
the right is a stable sort, and the result of any stable sort under the
comparator `(a, b) => dateB - dateA` is unique, so this is an exact model
of `posts.sort(...)` at source line 541 (`Array.prototype.sort` is
required to be stable). -/
def insertPostDesc (p : Post) : List Post → List Post
  | [] => [p]
  | q :: qs =>
    if dateMillis p.date < dateMillis q.date then q :: insertPostDesc p qs
    else p :: q :: qs

/-- The sort of the collected corpus index (source line 541): descending
by publish date, ties in encounter order. -/
def sortPosts (posts : List Post) : List Post := posts.foldr insertPostDesc []

/-- `(config.siteUrl || '').replace(/\/$/, '')`: strip one trailing
slash. -/
def stripTrailingSlash (s : String) : String :=
  match s.data.reverse with
  | '/' :: rest => String.mk rest.reverse
  | _ => s

/-- One `<item>` element of the RSS feed (source lines 570-581). -/
def rssItem (siteUrl : String) (post : Post) : String :=
  let link := siteUrl ++ "/" ++ post.urlPath
  String.intercalate "\n"
    ["    <item>",
     "      <title>" ++ xmlEscape post.title ++ "</title>",
     "      <link>" ++ xmlEscape link ++ "</link>",
     "      <guid>" ++ xmlEscape link ++ "</guid>",
     "      <pubDate>" ++ xmlEscape (toRfc822Date post.date) ++ "</pubDate>",
     "      <description>" ++ xmlEscape post.description ++ "</description>",
     "    </item>"]

/-- `renderRss` (source lines 567-597). -/
def renderRss (config : Config) (posts : List Post) : String :=
  let siteUrl := stripTrailingSlash config.siteUrl
  let items := String.intercalate "\n" (posts.map (rssItem siteUrl))
  String.intercalate "\n"
    ["<?xml version=\"1.0\" encoding=\"UTF-8\" ?>",
     "<rss version=\"2.0\">",
     "  <channel>",
     "    <title>" ++
       xmlEscape (if config.siteTitle = "" then "Site" else config.siteTitle) ++
       "</title>",
     "    <link>" ++ xmlEscape (siteUrl ++ "/") ++ "</link>",
     "    <description>" ++ xmlEscape config.siteDescription ++ "</description>",
     "    <language>en-us</language>",
     items,
     "  </channel>",
     "</rss>",
     ""]

/-! ## Front matter and corpus collection (source lines 103-135, 469-543) -/

/-- The fatal build errors, one constructor per `throw` site of the
source; the spec's taxonomy names map onto these
(`MalformedFrontMatter` covers the first two). -/
inductive BuildError where
  | missingFrontMatter (file : String)
  | unterminatedFrontMatter (file : String)
  | invalidFrontMatterLine (line file : String)
  | missingField (field file : String)
  | invalidBooleanFlag (field file : String)
  | invalidDate (date file : String)
  | duplicateOutputPath (urlPath : String)
deriving DecidableEq, Repr

/-- `String.prototype.indexOf(pat, start)` on character lists, returning
the absolute index of the first occurrence at or after `start`. -/
def indexOfAux : List Char → List Char → Nat → Option Nat
  | [], _, _ => none
  | c :: rest, pat, idx =>
    if pat.isPrefixOf (c :: rest) then some idx else indexOfAux rest pat (idx + 1)

/-- `source.indexOf(pat, start)` (`none` for `-1`). -/
def jsIndexOfFrom (s pat : String) (start : Nat) : Option Nat :=
  indexOfAux (s.data.drop start) pat.data start

/-- Strip one layer of matching single or double quotes
(source lines 125-127). -/
def stripQuotes (v : String) : String :=
  let cs := v.data
  match cs, cs.getLast? with
  | c :: _, some l =>
    if (c == '"' && l == '"') || (c == '\'' && l == '\'') then
      String.mk (cs.drop 1).dropLast
    else v
  | _, _ => v

/-- Parse the `key: value` lines of the front-matter block
(source lines 114-129); later bindings overwrite earlier ones, which the
association list models by appending and looking up the last match. -/
def parseMetaLines (filePath : String) :
    List String → List (String × String) → Except BuildError (List (String × String))
  | [], meta => .ok meta
  | line :: rest, meta =>
    if jsTrim line = "" then parseMetaLines filePath rest meta
    else
      match jsIndexOfFrom line ":" 0 with
      | none => .error (.invalidFrontMatterLine line filePath)
      | some split =>
        let key := jsTrim (String.mk (line.data.take split))
        let value := stripQuotes (jsTrim (String.mk (line.data.drop (split + 1))))
        parseMetaLines filePath rest (meta ++ [(key, value)])

/-- Last binding of a key (JavaScript object-assignment semantics). -/
def metaGet (meta : List (String × String)) (k : String) : Option String :=
  (meta.reverse.find? (fun p => p.1 == k)).map (·.2)

/-- `parseFrontMatter` (source lines 103-135). -/
def parseFrontMatter (content filePath : String) :
    Except BuildError (List (String × String) × String) :=
  let source := normalizeNewlines content
  if "---\n".data.isPrefixOf source.data then
    match jsIndexOfFrom source "\n---\n" 4 with
    | none => .error (.unterminatedFrontMatter filePath)
    | some e =>
      let metaBlock := String.mk ((source.data.drop 4).take (e - 4))
      match parseMetaLines filePath (splitLines metaBlock) [] with
      | .error err => .error err
      | .ok meta =>
        let body := String.mk ((source.data.drop (e + 5)).dropWhile (fun c => c == '\n'))
        .ok (meta, body)
  else .error (.missingFrontMatter filePath)

/-- `requireString` (source lines 47-52). -/
def requireString (v : Option String) (field file : String) :
    Except BuildError String :=
  match v with
  | some s => if jsTrim s = "" then .error (.missingField field file) else .ok (jsTrim s)
  | none => .error (.missingField field file)

/-- `parseBooleanFlag` (source lines 54-70): empty/absent gives the
default; otherwise case-insensitive `true`/`false`. -/
def parseBooleanFlag (v : Option String) (field file : String) (dflt : Bool) :
    Except BuildError Bool :=
  match v with
  | none => .ok dflt
  | some s =>
    if s = "" then .ok dflt
    else
      let normalized := jsToLower (jsTrim s)
      if normalized = "true" then .ok true
      else if normalized = "false" then .ok false
      else .error (.invalidBooleanFlag field file)

/-- The metadata phase of one document inside `collectPosts`
(source lines 503-526): front matter, required fields, flags, date
validation, and the `post` record.  Returns the record and the Markdown
body. -/
def processMeta (categorySlug slug content : String) :
    Except BuildError (Post × String) := do
  let markdownPath := "categories/" ++ categorySlug ++ "/" ++ slug ++ "/content.md"
  let (meta, body) ← parseFrontMatter content markdownPath
  let title ← requireString (metaGet meta "title") "title" markdownPath
  let description ← requireString (metaGet meta "description") "description" markdownPath
  let rawCategory :=
    match metaGet meta "category" with
    | some s => if s = "" then categorySlug else s
    | none => categorySlug
  let category ← requireString (some rawCategory) "category" markdownPath
  let date ← requireString (metaGet meta "date") "date" markdownPath
  let numberChapters ← parseBooleanFlag (metaGet meta "numberChapters") "numberChapters"
    markdownPath false
  let showContents ← parseBooleanFlag (metaGet meta "showContents") "showContents"
    markdownPath true
  if (parseIsoDate date).isNone then
    throw (.invalidDate date markdownPath)
  let post : Post :=
    { title := title, date := date, prettyDate := toPrettyDate date,
      description := description, category := category,
      categorySlug := categorySlug, slug := slug,
      urlPath := categorySlug ++ "/" ++ slug ++ "/",
      numberChapters := numberChapters, showContents := showContents }
  return (post, body)

/-- Accumulated collector state: the duplicate-path registry, the corpus
index so far, and the completed atomic writes (path, full content) —
`writeFileAtomic` guarantees a write is either absent or complete, which
is what this list records. -/
structure CollectState where
  seen : List String
  posts : List Post
  writes : List (String × String)
deriving DecidableEq, Repr

/-- Inner loop of `collectPosts` over the documents of one category
(source lines 487-538).  A document directory without a readable
`content.md` (`none`) is skipped.  On error, the writes completed so far
are preserved. -/
def collectInCategory (config : Config) (categorySlug : String) :
    List (String × Option String) → CollectState →
    Except (BuildError × CollectState) CollectState
  | [], st => .ok st
  | (slug, contentRaw?) :: rest, st =>
    match contentRaw? with
    | none => collectInCategory config categorySlug rest st
    | some contentRaw =>
      match processMeta categorySlug slug contentRaw with
      | .error e => .error (e, st)
      | .ok (post, body) =>
        if st.seen.contains post.urlPath then
          .error (.duplicateOutputPath post.urlPath, st)
        else
          let html := buildPostHtml post config body
          let htmlPath := "build/" ++ categorySlug ++ "/" ++ slug ++ "/index.html"
          collectInCategory config categorySlug rest
            { seen := st.seen ++ [post.urlPath], posts := st.posts ++ [post],
              writes := st.writes ++ [(htmlPath, html)] }

/-- Outer loop of `collectPosts` over the categories
(source lines 480-539). -/
def collectCategories (config : Config) :
    List (String × List (String × Option String)) → CollectState →
    Except (BuildError × CollectState) CollectState
  | [], st => .ok st
  | (catSlug, docs) :: rest, st =>
    match collectInCategory config catSlug docs st with
    | .error e => .error e
    | .ok st' => collectCategories config rest st'

/-- `collectPosts` (source lines 469-543) over a pure directory model:
a list of categories, each a list of `(post-slug, content.md?)` pairs in
directory order.  Returns the build outcome (the date-sorted corpus index,
or the fatal error) together with the completed writes. -/
def collectPosts (config : Config)
    (cats : List (String × List (String × Option String))) :
    Except BuildError (List Post) × List (String × String) :=
  match collectCategories config cats ⟨[], [], []⟩ with
  | .error (e, st) => (.error e, st.writes)
  | .ok st => (.ok (sortPosts st.posts), st.writes)

/-! ## Derived observations used by the claims -/

/-- The anchor ids of the heading blocks in a block list (every non-
level-2 heading emits exactly one heading block, so these are the
non-chapter anchor ids in emission order). -/
def blockHeadingIds (bs : List Block) : List String :=
  bs.filterMap fun b =>
    match b with
    | .heading _ _ i => some i
    | _ => none

/-- All anchor ids contributed by one chapter: its own id and the ids of
its heading blocks. -/
def chapterIds (c : Chapter) : List String := c.id :: blockHeadingIds c.blocks

/-- Every anchor id assigned by the structurer for a document: intro
heading ids and, per chapter, the chapter id and its heading-block ids. -/
def outlineIds (o : Outline) : List String :=
  blockHeadingIds o.introBlocks ++ o.chapters.flatMap chapterIds

/-- Ids contributed by the active chapter during parsing. -/
def activeIds (a : ActiveChapter) : List String := a.id :: blockHeadingIds a.blocks

/-- All ids assigned so far in a parser state. -/
def stateIds (st : PState) : List String :=
  blockHeadingIds st.intro ++ st.closed.flatMap chapterIds ++
    (match st.active with
     | some a => activeIds a
     | none => [])

/-- `strictForest lvl f`: every subsection in `f` has level greater than
`lvl`, recursively (each child's level exceeds its parent's). -/
def strictForest : Nat → SubForest → Bool
  | _, .nil => true
  | lvl, .cons (.mk _ clvl _ cchildren) rest =>
    (decide (lvl < clvl) && strictForest clvl cchildren) && strictForest lvl rest

/-- `listStrictUnder lvl l`: the same property for a `List Subsection`
child list of a parent at level `lvl`. -/
def listStrictUnder (lvl : Nat) (l : List Subsection) : Bool :=
  l.all fun c => decide (lvl < c.level) && strictForest c.level c.children

/-- Top-level subsections of a chapter carry no constraint against the
chapter; each must only be internally strict. -/
def strictRoot : List Subsection → Bool
  | [] => true
  | s :: rest => strictForest s.level s.children && strictRoot rest

/-- A chapter's subsection tree strictly increases in level from parent
to child. -/
def chapterStrict (c : Chapter) : Bool := strictRoot c.subsections

/-- All chapters of an outline are strict. -/
def outlineStrict (o : Outline) : Bool := o.chapters.all chapterStrict

/-- An open frame is well-formed: each already-collected child has level
greater than the frame's and is internally strict. -/
def frameOk (f : Frame) : Bool := listStrictUnder f.level f.children

/-- The `(id, depth)` trace of `renderTocSubsections`/`tocEntries`: for
each node the depth argument in force when its `<li>` is emitted (the
`depth-d` class of the enclosing `<ol>`); child lists are rendered by the
recursive call at `depth + 1`, guarded exactly as in `tocEntries` by the
nonemptiness of the child list. -/
def tocRenderDepths : SubForest → Nat → List (String × Nat)
  | .nil, _ => []
  | .cons (.mk id _ _ children) rest, depth =>
    (id, depth) ::
      ((match children with
        | .nil => []
        | .cons c cs => tocRenderDepths (.cons c cs) (depth + 1)) ++
       tocRenderDepths rest depth)

/-- The `(id, depth)` list of a subsection forest by its tree structure:
a node at tree depth `d` is listed with `d`, its children with `d + 1`. -/
def subsectionDepths : SubForest → Nat → List (String × Nat)
  | .nil, _ => []
  | .cons (.mk id _ _ children) rest, depth =>
    (id, depth) :: (subsectionDepths children (depth + 1) ++ subsectionDepths rest depth)

/-- Structural size of a forest (for strong induction). -/
def forestSize : SubForest → Nat
  | .nil => 0
  | .cons (.mk _ _ _ children) rest => 1 + forestSize children + forestSize rest

/-- Does a (trimmed) line parse as a level-2 heading? -/
def isLevel2Line (l : String) : Bool :=
  match parseHeading (jsTrim l) with
  | some (2, _) => true
  | _ => false

/-- Does the document body contain a level-2 heading line? -/
def hasChapterHeading (md : String) : Bool :=
  (splitLines (normalizeNewlines md)).any isLevel2Line

/-! ## Proof-support definitions -/

/-- The digit list of `natToString`. -/
def natDigits (n : Nat) : List Char := natToStringAux (n + 1) n []

/-- Invariant for anchor-id uniqueness: the ids assigned so far are
pairwise distinct and all registered in `usedIds`. -/
def IdInv (st : PState) : Prop :=
  (stateIds st).Nodup ∧ ∀ i ∈ stateIds st, i ∈ st.used

/-- The non-chapter (heading-block) ids of a parser state. -/
def stateSectionIds (st : PState) : List String :=
  blockHeadingIds st.intro ++ st.closed.flatMap (fun c => blockHeadingIds c.blocks) ++
    (match st.active with
     | some a => blockHeadingIds a.blocks
     | none => [])

/-- The non-chapter (heading-block) ids of an outline. -/
def outlineSectionIds (o : Outline) : List String :=
  blockHeadingIds o.introBlocks ++ o.chapters.flatMap (fun c => blockHeadingIds c.blocks)

/-- Invariant for anchor-id prefixes: chapter ids start with `chapter-`,
heading-block ids with `section-`. -/
def PrefixInv (st : PState) : Prop :=
  (∀ c ∈ st.closed, "chapter-".data <+: c.id.data) ∧
  (match st.active with
   | some a => "chapter-".data <+: a.id.data
   | none => True) ∧
  (∀ i ∈ stateSectionIds st, "section-".data <+: i.data)

/-- Invariant for subsection-level strictness: closed chapters are
strict; in the active chapter the finished top-level subsections are
strict, the open spine has strictly decreasing levels from top (head) to
bottom, and each open frame's collected children are valid children. -/
def StrictInv (st : PState) : Prop :=
  (∀ c ∈ st.closed, chapterStrict c = true) ∧
  (match st.active with
   | none => True
   | some a =>
     strictRoot a.subs = true ∧
     List.Chain' (fun f g => g.level < f.level) a.stack ∧
     ∀ f ∈ a.stack, frameOk f = true)

/-- A document body of `k` paragraph lines `x` followed by a heading
whose slug is empty (used to exercise the positional fallback). -/
def mkSectionFallbackBody : Nat → String
  | 0 => "### $$$"
  | k + 1 => "x\n" ++ mkSectionFallbackBody k

/-- Substring test (used to state that the assembled page contains the
TOC aside markup). -/
def strContains (s pat : String) : Bool :=
  s.data.tails.any (fun t => pat.data.isPrefixOf t)

/-- A demo post dated 2026-01-01. -/
def postJan : Post :=
  ⟨"A", "2026-01-01", "January 1, 2026", "first", "c", "c", "jan", "c/jan/",
    false, false⟩

/-- A demo post dated 2026-02-01. -/
def postFeb : Post :=
  ⟨"B", "2026-02-01", "February 1, 2026", "second", "c", "c", "feb", "c/feb/",
    false, false⟩

/-- A demo site configuration. -/
def cfgDemo : Config := ⟨"T", "https://example.com", "D"⟩

/-- A minimal valid source document. -/
def demoDoc : String :=
  "---\ntitle: A\ndescription: B\ndate: 2026-01-01\nshowContents: false\n---\nhello"

/-- The post record `processMeta` produces for `demoDoc` in category
`cat`, post directory `post`. -/
def demoPost : Post :=
  ⟨"A", "2026-01-01", "January 1, 2026", "B", "cat", "cat", "post", "cat/post/",
    false, false⟩

/-! ## Lemmas: decimal rendering -/

theorem natToStringAux_acc (fuel : Nat) :
    ∀ n acc, n < fuel → natToStringAux fuel n acc = natToStringAux fuel n [] ++ acc := by
  induction fuel with
  | zero => intro n acc h; omega
  | succ fuel ih =>
    intro n acc _
    by_cases h10 : n < 10
    · simp [natToStringAux, h10]
    · have hdiv : n / 10 < fuel := by
        have h1 : n / 10 < n := Nat.div_lt_self (by omega) (by omega)
        omega
      simp only [natToStringAux, if_neg h10]
      rw [ih (n / 10) (Char.ofNat (48 + n % 10) :: acc) hdiv,
        ih (n / 10) [Char.ofNat (48 + n % 10)] hdiv]
      simp

theorem natToStringAux_fuel (f1 : Nat) :
    ∀ f2 n acc, n < f1 → n < f2 →
      natToStringAux f1 n acc = natToStringAux f2 n acc := by
  induction f1 with
  | zero => intro f2 n acc h; omega
  | succ f1 ih =>
    intro f2 n acc h1 h2
    match f2, h2 with
    | f2 + 1, _ =>
      by_cases h10 : n < 10
      · simp [natToStringAux, h10]
      · have hd : n / 10 < n := Nat.div_lt_self (by omega) (by omega)
        simp only [natToStringAux, if_neg h10]
        exact ih f2 (n / 10) _ (by omega) (by omega)

theorem natToString_eq_mk (n : Nat) : natToString n = String.mk (natDigits n) := rfl

theorem natDigits_small {n : Nat} (h : n < 10) :
    natDigits n = [Char.ofNat (48 + n % 10)] := by
  simp [natDigits, natToStringAux, h]

theorem natDigits_big {n : Nat} (h : 10 ≤ n) :
    natDigits n = natDigits (n / 10) ++ [Char.ofNat (48 + n % 10)] := by
  have hd : n / 10 < n := Nat.div_lt_self (by omega) (by omega)
  have h1 : natDigits n = natToStringAux n (n / 10) [Char.ofNat (48 + n % 10)] := by
    simp only [natDigits, natToStringAux]
    rw [if_neg (by omega : ¬ n < 10)]
  rw [h1, natToStringAux_acc n (n / 10) _ (by omega),
    natToStringAux_fuel n (n / 10 + 1) (n / 10) [] (by omega) (by omega)]
  rfl

theorem natDigits_ne_nil (n : Nat) : natDigits n ≠ [] := by
  by_cases h : n < 10
  · simp [natDigits_small h]
  · simp [natDigits_big (by omega : 10 ≤ n)]

theorem digitChar_inj : ∀ a < 10, ∀ b < 10,
    Char.ofNat (48 + a) = Char.ofNat (48 + b) → a = b := by decide

theorem natDigits_inj : ∀ m n : Nat, natDigits m = natDigits n → m = n := by
  intro m
  induction m using Nat.strong_induction_on with
  | _ m ih =>
    intro n h
    by_cases hm : m < 10 <;> by_cases hn : n < 10
    · rw [natDigits_small hm, natDigits_small hn] at h
      have := digitChar_inj (m % 10) (by omega) (n % 10) (by omega)
        (List.cons.injEq .. ▸ h).1
      omega
    · rw [natDigits_small hm, natDigits_big (by omega : 10 ≤ n)] at h
      have := congrArg List.length h
      have := natDigits_ne_nil (n / 10)
      simp at this ⊢
      cases hnil : natDigits (n / 10) with
      | nil => exact absurd hnil (natDigits_ne_nil _)
      | cons a l => rw [hnil] at h; simp at h
    · rw [natDigits_big (by omega : 10 ≤ m), natDigits_small hn] at h
      cases hnil : natDigits (m / 10) with
      | nil => exact absurd hnil (natDigits_ne_nil _)
      | cons a l => rw [hnil] at h; simp at h
    · rw [natDigits_big (by omega : 10 ≤ m), natDigits_big (by omega : 10 ≤ n)] at h
      have h' := congrArg List.reverse h
      simp only [List.reverse_append, List.reverse_cons, List.reverse_nil,
        List.nil_append, List.singleton_append, List.cons.injEq] at h'
      obtain ⟨hdig, hrev⟩ := h'
      have hdivs : m / 10 = n / 10 := by
        apply ih (m / 10) (Nat.div_lt_self (by omega) (by omega))
        have := congrArg List.reverse hrev
        simpa using this
      have hmod : m % 10 = n % 10 :=
        digitChar_inj (m % 10) (by omega) (n % 10) (by omega) hdig
      omega

theorem natToString_inj {m n : Nat} (h : natToString m = natToString n) : m = n := by
  apply natDigits_inj
  have : (natToString m).data = (natToString n).data := by rw [h]
  simpa [natToString_eq_mk] using this

/-! ## Lemmas: `uniqueId` -/

theorem strData_append (s t : String) : (s ++ t).data = s.data ++ t.data := rfl

theorem natToString_length_pos (n : Nat) : 0 < (natToString n).length := by
  have h := natDigits_ne_nil n
  have : (natToString n).length = (natDigits n).length := rfl
  rw [this]
  cases hd : natDigits n with
  | nil => exact absurd hd h
  | cons a l => simp

theorem candidateIds_nodup (base : String) (bound : Nat) :
    (candidateIds base bound).Nodup := by
  unfold candidateIds
  refine List.Nodup.cons ?_ ?_
  · intro hmem
    simp only [List.mem_map, List.mem_range] at hmem
    obtain ⟨k, _, hk⟩ := hmem
    have hlen := congrArg String.length hk
    rw [String.length_append, String.length_append] at hlen
    have hpos := natToString_length_pos (k + 2)
    have hdash : ("-" : String).length = 1 := rfl
    omega
  · refine List.Nodup.map ?_ (List.nodup_range bound)
    intro j k hjk
    have hdata := congrArg String.data hjk
    rw [strData_append, strData_append, strData_append, strData_append] at hdata
    have h1 := List.append_cancel_left hdata
    have := natDigits_inj (j + 2) (k + 2) h1
    omega

theorem uniqueIdFrom_mem_candidates (used : List String) (pref text fallback : String) :
    uniqueIdFrom used pref text fallback ∈
      candidateIds
        (pref ++ "-" ++ (if slugify text = "" then fallback else slugify text))
        (used.length + 1) := by
  simp only [uniqueIdFrom]
  cases hf : (candidateIds
      (pref ++ "-" ++ (if slugify text = "" then fallback else slugify text))
      (used.length + 1)).find? (fun c => !used.contains c) with
  | none => exact List.mem_cons_self _ _
  | some c => exact List.mem_of_find?_eq_some hf

theorem uniqueIdFrom_fresh (used : List String) (pref text fallback : String) :
    used.contains (uniqueIdFrom used pref text fallback) = false := by
  simp only [uniqueIdFrom]
  cases hf : (candidateIds
      (pref ++ "-" ++ (if slugify text = "" then fallback else slugify text))
      (used.length + 1)).find? (fun c => !used.contains c) with
  | none =>
    exfalso
    have hall : ∀ c ∈ candidateIds
        (pref ++ "-" ++ (if slugify text = "" then fallback else slugify text))
        (used.length + 1), c ∈ used := by
      intro c hc
      have h := List.find?_eq_none.mp hf c hc
      simp only [Bool.not_eq_true'] at h
      have h2 : used.contains c = true := by
        cases hcc : used.contains c
        · exact absurd hcc h
        · rfl
      exact List.elem_iff.mp h2
    have hnodup := candidateIds_nodup
      (pref ++ "-" ++ (if slugify text = "" then fallback else slugify text))
      (used.length + 1)
    have hlen := (List.subperm_of_subset hnodup hall).length_le
    simp [candidateIds] at hlen
    omega
  | some c =>
    have hp := List.find?_some hf
    simpa only [Bool.not_eq_true', Option.getD_some] using hp

theorem uniqueIdFrom_pre (used : List String) (pref text fallback : String) :
    (pref ++ "-").data <+: (uniqueIdFrom used pref text fallback).data := by
  have hmem := uniqueIdFrom_mem_candidates used pref text fallback
  set r := uniqueIdFrom used pref text fallback with hr
  simp only [candidateIds, List.mem_cons, List.mem_map, List.mem_range] at hmem
  rcases hmem with h | ⟨k, _, hk⟩
  · rw [h]
    exact List.prefix_append _ _
  · rw [← hk]
    refine (List.prefix_append (pref ++ "-").data
      (if slugify text = "" then fallback else slugify text).data).trans ?_
    show ((pref ++ "-" ++ _) : String).data <+: _
    rw [show ((pref ++ "-" ++ (if slugify text = "" then fallback else slugify text) ++
        "-" ++ natToString (k + 2)) : String).data =
      ((pref ++ "-" ++ (if slugify text = "" then fallback else slugify text)) : String).data
        ++ ("-".data ++ (natToString (k + 2)).data) from by
        simp [strData_append]]
    exact List.prefix_append _ _


/-! ## Lemmas: id bookkeeping across the parse loop -/

theorem uniqueIdFrom_not_mem (used : List String) (pref text fallback : String) :
    uniqueIdFrom used pref text fallback ∉ used := by
  intro hmem
  have h1 := uniqueIdFrom_fresh used pref text fallback
  have h2 : used.contains (uniqueIdFrom used pref text fallback) = true :=
    List.elem_iff.mpr hmem
  rw [h2] at h1
  exact Bool.noConfusion h1

theorem blockHeadingIds_append (bs cs : List Block) :
    blockHeadingIds (bs ++ cs) = blockHeadingIds bs ++ blockHeadingIds cs := by
  simp [blockHeadingIds]

theorem chapterIds_closeActive (a : ActiveChapter) :
    chapterIds (closeActive a) = activeIds a := rfl

theorem stateIds_pushBlock (b : Block) (st : PState) :
    List.Perm (stateIds (pushBlockSt b st)) (stateIds st ++ blockHeadingIds [b]) := by
  cases ha : st.active with
  | some a =>
    simp only [stateIds, pushBlockSt, ha, activeIds, blockHeadingIds_append,
      List.append_assoc, List.cons_append]
    exact List.Perm.refl _
  | none =>
    simp only [stateIds, pushBlockSt, ha, blockHeadingIds_append, List.append_assoc,
      List.append_nil]
    exact List.Perm.append_left _ List.perm_append_comm

theorem attachSubsection_id (a : ActiveChapter) (id : String) (level : Nat)
    (text : String) : (attachSubsection a id level text).id = a.id := by
  rcases hp : popGE level a.stack a.subs with ⟨s1, s2⟩
  simp [attachSubsection, hp]

theorem attachSubsection_blocks (a : ActiveChapter) (id : String) (level : Nat)
    (text : String) : (attachSubsection a id level text).blocks = a.blocks := by
  rcases hp : popGE level a.stack a.subs with ⟨s1, s2⟩
  simp [attachSubsection, hp]

theorem attachSubsection_title (a : ActiveChapter) (id : String) (level : Nat)
    (text : String) : (attachSubsection a id level text).title = a.title := by
  rcases hp : popGE level a.stack a.subs with ⟨s1, s2⟩
  simp [attachSubsection, hp]

theorem pushBlockSt_used (b : Block) (st : PState) :
    (pushBlockSt b st).used = st.used := by
  cases h : st.active <;> simp [pushBlockSt, h]

theorem IdInv_push_nonheading (st : PState) (b : Block)
    (hb : blockHeadingIds [b] = []) (hInv : IdInv st) : IdInv (pushBlockSt b st) := by
  have hperm := stateIds_pushBlock b st
  rw [hb, List.append_nil] at hperm
  refine ⟨hperm.nodup_iff.mpr hInv.1, fun i hi => ?_⟩
  rw [pushBlockSt_used]
  exact hInv.2 i (hperm.mem_iff.mp hi)

/-- Generic heading step: pushing a fresh heading id after registering it
preserves the id invariant. -/
theorem IdInv_push_heading (st st1 : PState) (lvl : Nat) (txt id : String)
    (hids : stateIds st1 = stateIds st) (hused : st1.used = st.used)
    (hInv : IdInv st) (hfresh : id ∉ st.used) :
    IdInv (pushBlockSt (.heading lvl txt id) { st1 with used := st1.used ++ [id] }) := by
  have hperm := stateIds_pushBlock (.heading lvl txt id)
    { st1 with used := st1.used ++ [id] }
  have hids' : stateIds { st1 with used := st1.used ++ [id] } = stateIds st := hids
  rw [hids'] at hperm
  have hnotin : id ∉ stateIds st := fun hmem => hfresh (hInv.2 id hmem)
  constructor
  · rw [hperm.nodup_iff, List.nodup_append]
    refine ⟨hInv.1, ?_, fun i hi hj => ?_⟩
    · simp [blockHeadingIds]
    · have hj' : i = id := by simpa [blockHeadingIds] using hj
      exact hnotin (hj' ▸ hi)
  · intro i hi
    have hmem := hperm.mem_iff.mp hi
    have hu : (pushBlockSt (.heading lvl txt id)
        { st1 with used := st1.used ++ [id] }).used = st.used ++ [id] := by
      rw [pushBlockSt_used]
      simpa using congrArg (fun u => u ++ [id]) hused
    rw [hu]
    rcases List.mem_append.mp hmem with h | h
    · exact List.mem_append.mpr (Or.inl (hInv.2 i h))
    · have h' : i = id := by simpa [blockHeadingIds] using h
      simp [h']

theorem stateIds_sectionHeadingStep (st : PState) (level : Nat) (text id : String) :
    stateIds
      (match st.active with
       | some a =>
         if 3 ≤ level then { st with active := some (attachSubsection a id level text) }
         else st
       | none => st) = stateIds st := by
  cases ha : st.active with
  | none => rfl
  | some a =>
    by_cases h3 : 3 ≤ level
    · simp only [if_pos h3]
      simp [stateIds, ha, activeIds, attachSubsection_id, attachSubsection_blocks]
    · simp [if_neg h3]

theorem used_sectionHeadingStep (st : PState) (level : Nat) (text id : String) :
    (match st.active with
     | some a =>
       if 3 ≤ level then { st with active := some (attachSubsection a id level text) }
       else st
     | none => st).used = st.used := by
  cases ha : st.active with
  | none => rfl
  | some a =>
    by_cases h3 : 3 ≤ level
    · simp [if_pos h3]
    · simp [if_neg h3]

theorem IdInv_sectionHeading (st : PState) (level : Nat) (text id : String)
    (hInv : IdInv st) (hfresh : id ∉ st.used) :
    IdInv (sectionHeadingState st level text id) := by
  unfold sectionHeadingState
  exact IdInv_push_heading st _ level text id
    (stateIds_sectionHeadingStep st level text id)
    (used_sectionHeadingStep st level text id) hInv hfresh

theorem stateIds_newChapter (st : PState) (title id : String) :
    stateIds (newChapterState st title id) = stateIds st ++ [id] := by
  cases ha : st.active <;>
    simp [stateIds, newChapterState, ha, activeIds, chapterIds_closeActive,
      blockHeadingIds, List.append_assoc]

theorem IdInv_newChapter (st : PState) (title id : String)
    (hInv : IdInv st) (hfresh : id ∉ st.used) :
    IdInv (newChapterState st title id) := by
  have heq := stateIds_newChapter st title id
  have hnotin : id ∉ stateIds st := fun hmem => hfresh (hInv.2 id hmem)
  have hu : (newChapterState st title id).used = st.used ++ [id] := rfl
  constructor
  · rw [heq, List.nodup_append]
    refine ⟨hInv.1, List.nodup_singleton id, fun i hi hj => ?_⟩
    simp only [List.mem_singleton] at hj
    exact hnotin (hj ▸ hi)
  · intro i hi
    rw [heq] at hi
    rw [hu]
    rcases List.mem_append.mp hi with h | h
    · exact List.mem_append.mpr (Or.inl (hInv.2 i h))
    · exact List.mem_append.mpr (Or.inr h)

theorem IdInv_parseLines (fuel : Nat) :
    ∀ lines pos st, IdInv st → IdInv (parseLines fuel lines pos st) := by
  induction fuel with
  | zero => intro lines pos st h; simpa [parseLines] using h
  | succ fuel ih =>
    intro lines pos st hInv
    cases lines with
    | nil => simpa [parseLines] using hInv
    | cons l rest =>
      rw [parseLines]
      by_cases hblank : jsTrim l = ""
      · rw [if_pos hblank]; exact ih _ _ _ hInv
      · rw [if_neg hblank]
        cases hhead : parseHeading (jsTrim l) with
        | some lt =>
          obtain ⟨level, text⟩ := lt
          by_cases h2 : level = 2
          · simp only [if_pos h2]
            exact ih _ _ _ (IdInv_newChapter st _ _ hInv (uniqueIdFrom_not_mem _ _ _ _))
          · simp only [if_neg h2]
            exact ih _ _ _
              (IdInv_sectionHeading st level text _ hInv (uniqueIdFrom_not_mem _ _ _ _))
        | none =>
          by_cases hfence : isFenceStart (jsTrim l)
          · simp only [if_pos hfence]
            exact ih _ _ _ (IdInv_push_nonheading st _ rfl hInv)
          · simp only [if_neg hfence]
            by_cases hul : isUlStart (jsTrim l)
            · simp only [if_pos hul]
              exact ih _ _ _ (IdInv_push_nonheading st _ rfl hInv)
            · simp only [if_neg hul]
              by_cases hol : isOlStart (jsTrim l)
              · simp only [if_pos hol]
                exact ih _ _ _ (IdInv_push_nonheading st _ rfl hInv)
              · simp only [if_neg hol]
                by_cases hq : isQuoteStart (jsTrim l)
                · simp only [if_pos hq]
                  exact ih _ _ _ (IdInv_push_nonheading st _ rfl hInv)
                · simp only [if_neg hq]
                  exact ih _ _ _ (IdInv_push_nonheading st _ rfl hInv)

theorem outlineIds_final (st : PState) :
    outlineIds
      { introBlocks := st.intro,
        chapters := st.closed ++
          (match st.active with | some a => [closeActive a] | none => []) } =
      stateIds st := by
  cases ha : st.active <;>
    simp [outlineIds, stateIds, ha, chapterIds_closeActive, List.append_assoc]

theorem parseMarkdown_ids_nodup (md : String) :
    (outlineIds (parseMarkdown md)).Nodup := by
  have hInit : IdInv ⟨[], [], none, []⟩ := by
    constructor
    · simp [stateIds, blockHeadingIds]
    · intro i hi
      simp [stateIds, blockHeadingIds] at hi
  have h := IdInv_parseLines (splitLines (normalizeNewlines md)).length
    (splitLines (normalizeNewlines md)) 0 ⟨[], [], none, []⟩ hInit
  have heq : parseMarkdown md =
      { introBlocks := (parseLines (splitLines (normalizeNewlines md)).length
          (splitLines (normalizeNewlines md)) 0 ⟨[], [], none, []⟩).intro,
        chapters := (parseLines (splitLines (normalizeNewlines md)).length
          (splitLines (normalizeNewlines md)) 0 ⟨[], [], none, []⟩).closed ++
          (match (parseLines (splitLines (normalizeNewlines md)).length
            (splitLines (normalizeNewlines md)) 0 ⟨[], [], none, []⟩).active with
           | some a => [closeActive a] | none => []) } := rfl
  rw [heq, outlineIds_final]
  exact h.1

/-! ## A generic preservation principle for the parse loop -/

/-- Any state property preserved by the three state transformations of
the loop (block push, chapter opening, section heading) is an invariant
of `parseLines`. -/
theorem parseLines_preserves (P : PState → Prop)
    (hpush : ∀ st b, blockHeadingIds [b] = [] → P st → P (pushBlockSt b st))
    (hchap : ∀ st title, P st →
      P (newChapterState st title
          (uniqueIdFrom st.used ("chapter-" ++ natToString (chapterCount st + 1)) title
            (natToString (chapterCount st + 1)))))
    (hsect : ∀ st level text pos, level ≠ 2 → P st →
      P (sectionHeadingState st level text
          (uniqueIdFrom st.used "section" text (natToString (pos + 1))))) :
    ∀ fuel lines pos st, P st → P (parseLines fuel lines pos st) := by
  intro fuel
  induction fuel with
  | zero => intro lines pos st h; simpa [parseLines] using h
  | succ fuel ih =>
    intro lines pos st hP
    cases lines with
    | nil => simpa [parseLines] using hP
    | cons l rest =>
      rw [parseLines]
      by_cases hblank : jsTrim l = ""
      · rw [if_pos hblank]; exact ih _ _ _ hP
      · rw [if_neg hblank]
        cases hhead : parseHeading (jsTrim l) with
        | some lt =>
          obtain ⟨level, text⟩ := lt
          by_cases h2 : level = 2
          · simp only [if_pos h2]
            exact ih _ _ _ (hchap st _ hP)
          · simp only [if_neg h2]
            exact ih _ _ _ (hsect st level text pos h2 hP)
        | none =>
          by_cases hfence : isFenceStart (jsTrim l)
          · simp only [if_pos hfence]
            exact ih _ _ _ (hpush st _ rfl hP)
          · simp only [if_neg hfence]
            by_cases hul : isUlStart (jsTrim l)
            · simp only [if_pos hul]
              exact ih _ _ _ (hpush st _ rfl hP)
            · simp only [if_neg hul]
              by_cases hol : isOlStart (jsTrim l)
              · simp only [if_pos hol]
                exact ih _ _ _ (hpush st _ rfl hP)
              · simp only [if_neg hol]
                by_cases hq : isQuoteStart (jsTrim l)
                · simp only [if_pos hq]
                  exact ih _ _ _ (hpush st _ rfl hP)
                · simp only [if_neg hq]
                  exact ih _ _ _ (hpush st _ rfl hP)

/-! ## Lemmas: anchor-id prefixes (chapter- / section-) -/

theorem uniqueIdFrom_chapter_pre (used : List String) (count : Nat)
    (title fb : String) :
    "chapter-".data <+:
      (uniqueIdFrom used ("chapter-" ++ natToString count) title fb).data := by
  refine List.IsPrefix.trans ?_
    (uniqueIdFrom_pre used ("chapter-" ++ natToString count) title fb)
  show "chapter-".data <+: ("chapter-".data ++ (natToString count).data) ++ "-".data
  rw [List.append_assoc]
  exact List.prefix_append _ _

theorem uniqueIdFrom_section_pre (used : List String) (text fb : String) :
    "section-".data <+: (uniqueIdFrom used "section" text fb).data := by
  have h := uniqueIdFrom_pre used "section" text fb
  exact h

theorem pushBlockSt_closed (b : Block) (st : PState) :
    (pushBlockSt b st).closed = st.closed := by
  cases h : st.active <;> simp [pushBlockSt, h]

theorem pushBlockSt_active (b : Block) (st : PState) :
    (pushBlockSt b st).active =
      st.active.map (fun a => { a with blocks := a.blocks ++ [b] }) := by
  cases h : st.active <;> simp [pushBlockSt, h]

theorem stateSectionIds_pushBlock (b : Block) (st : PState) :
    List.Perm (stateSectionIds (pushBlockSt b st))
      (stateSectionIds st ++ blockHeadingIds [b]) := by
  cases ha : st.active with
  | some a =>
    simp only [stateSectionIds, pushBlockSt, ha, blockHeadingIds_append,
      List.append_assoc]
    exact List.Perm.refl _
  | none =>
    simp only [stateSectionIds, pushBlockSt, ha, blockHeadingIds_append,
      List.append_assoc, List.append_nil]
    exact List.Perm.append_left _ List.perm_append_comm

theorem stateSectionIds_newChapter (st : PState) (title id : String) :
    List.Perm (stateSectionIds (newChapterState st title id)) (stateSectionIds st) := by
  cases ha : st.active <;>
    simp [stateSectionIds, newChapterState, ha, closeActive, blockHeadingIds,
      List.append_assoc]

theorem PrefixInv_push (st : PState) (b : Block) (hb : blockHeadingIds [b] = [])
    (hInv : PrefixInv st) : PrefixInv (pushBlockSt b st) := by
  obtain ⟨h1, h2, h3⟩ := hInv
  refine ⟨?_, ?_, ?_⟩
  · rw [pushBlockSt_closed]; exact h1
  · rw [pushBlockSt_active]
    cases ha : st.active with
    | none => trivial
    | some a => rw [ha] at h2; simpa using h2
  · intro i hi
    have hperm := stateSectionIds_pushBlock b st
    rw [hb, List.append_nil] at hperm
    exact h3 i (hperm.mem_iff.mp hi)

theorem PrefixInv_newChapter (st : PState) (title : String)
    (hInv : PrefixInv st) :
    PrefixInv (newChapterState st title
      (uniqueIdFrom st.used ("chapter-" ++ natToString (chapterCount st + 1)) title
        (natToString (chapterCount st + 1)))) := by
  obtain ⟨h1, h2, h3⟩ := hInv
  refine ⟨?_, ?_, ?_⟩
  · intro c hc
    simp only [newChapterState] at hc
    rcases List.mem_append.mp hc with h | h
    · exact h1 c h
    · cases ha : st.active with
      | none => rw [ha] at h; simp at h
      | some a =>
        rw [ha] at h
        simp only [List.mem_singleton] at h
        rw [ha] at h2
        have : c.id = a.id := by rw [h]; rfl
        rw [this]
        exact h2
  · exact uniqueIdFrom_chapter_pre st.used (chapterCount st + 1) title _
  · intro i hi
    exact h3 i ((stateSectionIds_newChapter st title _).mem_iff.mp hi)

theorem PrefixInv_sectionHeading (st : PState) (level : Nat) (text pos' : String)
    (hInv : PrefixInv st) :
    PrefixInv (sectionHeadingState st level text
      (uniqueIdFrom st.used "section" text pos')) := by
  obtain ⟨h1, h2, h3⟩ := hInv
  unfold sectionHeadingState
  set id := uniqueIdFrom st.used "section" text pos' with hid
  have key : ∀ st1 : PState, st1.closed = st.closed →
      (∀ a', st1.active = some a' → "chapter-".data <+: a'.id.data) →
      stateSectionIds st1 = stateSectionIds st →
      PrefixInv (pushBlockSt (.heading level text id)
        { st1 with used := st1.used ++ [id] }) := by
    intro st1 hclosed hactive hsect
    refine ⟨?_, ?_, ?_⟩
    · rw [pushBlockSt_closed]
      show ∀ c ∈ st1.closed, _
      rw [hclosed]
      exact h1
    · rw [pushBlockSt_active]
      cases ha1 : st1.active with
      | none => trivial
      | some a' => simpa using hactive a' ha1
    · intro i hi
      have hperm := stateSectionIds_pushBlock (.heading level text id)
        { st1 with used := st1.used ++ [id] }
      have hrw : stateSectionIds { st1 with used := st1.used ++ [id] } =
          stateSectionIds st1 := rfl
      rw [hrw, hsect] at hperm
      rcases List.mem_append.mp (hperm.mem_iff.mp hi) with h | h
      · exact h3 i h
      · have h' : i = id := by simpa [blockHeadingIds] using h
        rw [h', hid]
        exact uniqueIdFrom_section_pre st.used text pos'
  cases ha : st.active with
  | none =>
    dsimp only
    refine key st rfl ?_ rfl
    intro a' ha'
    rw [ha] at ha'
    exact absurd ha' (by simp)
  | some a =>
    dsimp only
    by_cases h3' : 3 ≤ level
    · rw [if_pos h3']
      refine key _ rfl ?_ ?_
      · intro a' ha'
        have haa : a' = attachSubsection a id level text := by
          simpa using ha'.symm
        rw [haa, attachSubsection_id]
        rw [ha] at h2
        exact h2
      · simp [stateSectionIds, ha, attachSubsection_blocks]
    · rw [if_neg h3']
      refine key st rfl ?_ rfl
      intro a' ha'
      rw [ha] at ha'
      have haa : a' = a := by simpa using ha'.symm
      rw [haa]
      rw [ha] at h2
      exact h2

theorem PrefixInv_parseLines (fuel : Nat) (lines : List String) (pos : Nat)
    (st : PState) (hInv : PrefixInv st) : PrefixInv (parseLines fuel lines pos st) :=
  parseLines_preserves PrefixInv PrefixInv_push
    (fun st title h => PrefixInv_newChapter st title h)
    (fun st level text _pos _ h => PrefixInv_sectionHeading st level text _ h)
    fuel lines pos st hInv

/-! ## Lemmas: subsection-level strictness -/

theorem strictForest_ofList (lvl : Nat) (l : List Subsection) :
    strictForest lvl (SubForest.ofList l) = listStrictUnder lvl l := by
  induction l with
  | nil => rfl
  | cons s rest ih =>
    cases s with
    | mk id slvl title children =>
      simp only [SubForest.ofList, strictForest, listStrictUnder, Subsection.level,
        Subsection.children, List.all_cons] at ih ⊢
      rw [ih]

theorem strictRoot_append (l1 l2 : List Subsection) :
    strictRoot (l1 ++ l2) = (strictRoot l1 && strictRoot l2) := by
  induction l1 with
  | nil => simp [strictRoot]
  | cons s rest ih => simp [strictRoot, ih, Bool.and_assoc]

theorem closeFrame_level (f : Frame) : (closeFrame f).level = f.level := rfl

theorem closeFrame_strict (f : Frame) (h : frameOk f = true) :
    strictForest (closeFrame f).level (closeFrame f).children = true := by
  show strictForest f.level (SubForest.ofList f.children) = true
  rw [strictForest_ofList]
  exact h

theorem frameOk_addChild (g : Frame) (s : Subsection)
    (hg : frameOk g = true) (hlt : g.level < s.level)
    (hs : strictForest s.level s.children = true) :
    frameOk { g with children := g.children ++ [s] } = true := by
  simp only [frameOk, listStrictUnder, List.all_append, List.all_cons,
    List.all_nil, Bool.and_true, Bool.and_eq_true] at hg ⊢
  exact ⟨hg, by simp [hlt, hs]⟩

theorem popCarry_ok (level : Nat) :
    ∀ (stack : List Frame) (s : Subsection) (subs : List Subsection),
      List.Chain' (fun f g => g.level < f.level) stack →
      (∀ f ∈ stack, frameOk f = true) →
      strictRoot subs = true →
      strictForest s.level s.children = true →
      (∀ g ∈ stack.head?, g.level < s.level) →
      List.Chain' (fun f g => g.level < f.level) (popCarry level s stack subs).1 ∧
      (∀ f ∈ (popCarry level s stack subs).1, frameOk f = true) ∧
      strictRoot (popCarry level s stack subs).2 = true ∧
      (∀ g ∈ (popCarry level s stack subs).1.head?, g.level < level) := by
  intro stack
  induction stack with
  | nil =>
    intro s subs _ _ hsubs hs _
    refine ⟨List.chain'_nil, by simp [popCarry], ?_, by simp [popCarry]⟩
    simp only [popCarry]
    rw [strictRoot_append, hsubs]
    simp [strictRoot, hs]
  | cons g rest ih =>
    intro s subs hchain hframes hsubs hs hhead
    have hg : frameOk g = true := hframes g (List.mem_cons_self g rest)
    have hglt : g.level < s.level := hhead g (by simp)
    have hg' : frameOk { g with children := g.children ++ [s] } = true :=
      frameOk_addChild g s hg hglt hs
    by_cases hle : level ≤ g.level
    · simp only [popCarry, if_pos hle]
      apply ih
      · exact hchain.tail
      · intro f hf; exact hframes f (List.mem_cons_of_mem g hf)
      · exact hsubs
      · exact closeFrame_strict _ hg'
      · intro g' hg'mem
        rw [closeFrame_level]
        rcases rest with _ | ⟨r0, rrest⟩
        · simp at hg'mem
        · simp only [List.head?_cons, Option.mem_some_iff] at hg'mem
          have := List.chain'_cons.mp hchain
          rw [← hg'mem]
          exact this.1
    · simp only [popCarry, if_neg hle]
      refine ⟨?_, ?_, hsubs, ?_⟩
      · rcases rest with _ | ⟨r0, rrest⟩
        · simp
        · have := List.chain'_cons.mp hchain
          exact List.chain'_cons.mpr ⟨this.1, this.2⟩
      · intro f hf
        rcases List.mem_cons.mp hf with h | h
        · rw [h]; exact hg'
        · exact hframes f (List.mem_cons_of_mem g h)
      · intro g' hg'mem
        simp only [List.head?_cons, Option.mem_some_iff] at hg'mem
        rw [← hg'mem]
        show g.level < level
        omega

theorem popGE_ok (level : Nat) (stack : List Frame) (subs : List Subsection)
    (hchain : List.Chain' (fun f g => g.level < f.level) stack)
    (hframes : ∀ f ∈ stack, frameOk f = true)
    (hsubs : strictRoot subs = true) :
    List.Chain' (fun f g => g.level < f.level) (popGE level stack subs).1 ∧
    (∀ f ∈ (popGE level stack subs).1, frameOk f = true) ∧
    strictRoot (popGE level stack subs).2 = true ∧
    (∀ g ∈ (popGE level stack subs).1.head?, g.level < level) := by
  cases stack with
  | nil => exact ⟨List.chain'_nil, by simp [popGE], by simpa [popGE] using hsubs,
      by simp [popGE]⟩
  | cons f rest =>
    by_cases hle : level ≤ f.level
    · simp only [popGE, if_pos hle]
      apply popCarry_ok
      · exact hchain.tail
      · intro f' hf'; exact hframes f' (List.mem_cons_of_mem f hf')
      · exact hsubs
      · exact closeFrame_strict f (hframes f (List.mem_cons_self f rest))
      · intro g' hg'mem
        rw [closeFrame_level]
        rcases rest with _ | ⟨r0, rrest⟩
        · simp at hg'mem
        · simp only [List.head?_cons, Option.mem_some_iff] at hg'mem
          rw [← hg'mem]
          exact (List.chain'_cons.mp hchain).1
    · simp only [popGE, if_neg hle]
      refine ⟨hchain, hframes, hsubs, ?_⟩
      intro g' hg'mem
      simp only [List.head?_cons, Option.mem_some_iff] at hg'mem
      rw [← hg'mem]
      omega

theorem collapseCarry_ok :
    ∀ (stack : List Frame) (s : Subsection) (subs : List Subsection),
      List.Chain' (fun f g => g.level < f.level) stack →
      (∀ f ∈ stack, frameOk f = true) →
      strictRoot subs = true →
      strictForest s.level s.children = true →
      (∀ g ∈ stack.head?, g.level < s.level) →
      strictRoot (collapseCarry s stack subs) = true := by
  intro stack
  induction stack with
  | nil =>
    intro s subs _ _ hsubs hs _
    simp only [collapseCarry]
    rw [strictRoot_append, hsubs]
    simp [strictRoot, hs]
  | cons g rest ih =>
    intro s subs hchain hframes hsubs hs hhead
    have hg : frameOk g = true := hframes g (List.mem_cons_self g rest)
    have hglt : g.level < s.level := hhead g (by simp)
    have hg' : frameOk { g with children := g.children ++ [s] } = true :=
      frameOk_addChild g s hg hglt hs
    simp only [collapseCarry]
    apply ih
    · exact hchain.tail
    · intro f hf; exact hframes f (List.mem_cons_of_mem g hf)
    · exact hsubs
    · exact closeFrame_strict _ hg'
    · intro g' hg'mem
      rw [closeFrame_level]
      rcases rest with _ | ⟨r0, rrest⟩
      · simp at hg'mem
      · simp only [List.head?_cons, Option.mem_some_iff] at hg'mem
        rw [← hg'mem]
        exact (List.chain'_cons.mp hchain).1

theorem collapseAll_ok (stack : List Frame) (subs : List Subsection)
    (hchain : List.Chain' (fun f g => g.level < f.level) stack)
    (hframes : ∀ f ∈ stack, frameOk f = true)
    (hsubs : strictRoot subs = true) :
    strictRoot (collapseAll stack subs) = true := by
  cases stack with
  | nil => simpa [collapseAll] using hsubs
  | cons f rest =>
    simp only [collapseAll]
    apply collapseCarry_ok
    · exact hchain.tail
    · intro f' hf'; exact hframes f' (List.mem_cons_of_mem f hf')
    · exact hsubs
    · exact closeFrame_strict f (hframes f (List.mem_cons_self f rest))
    · intro g' hg'mem
      rw [closeFrame_level]
      rcases rest with _ | ⟨r0, rrest⟩
      · simp at hg'mem
      · simp only [List.head?_cons, Option.mem_some_iff] at hg'mem
        rw [← hg'mem]
        exact (List.chain'_cons.mp hchain).1

theorem chapterStrict_closeActive (a : ActiveChapter)
    (hsubs : strictRoot a.subs = true)
    (hchain : List.Chain' (fun f g => g.level < f.level) a.stack)
    (hframes : ∀ f ∈ a.stack, frameOk f = true) :
    chapterStrict (closeActive a) = true := by
  show strictRoot (collapseAll a.stack a.subs) = true
  exact collapseAll_ok a.stack a.subs hchain hframes hsubs

theorem StrictInv_push (st : PState) (b : Block) (_hb : blockHeadingIds [b] = [])
    (hInv : StrictInv st) : StrictInv (pushBlockSt b st) := by
  obtain ⟨h1, h2⟩ := hInv
  constructor
  · rw [pushBlockSt_closed]; exact h1
  · rw [pushBlockSt_active]
    cases ha : st.active with
    | none => trivial
    | some a =>
      rw [ha] at h2
      simpa using h2

theorem StrictInv_newChapter (st : PState) (title id : String)
    (hInv : StrictInv st) : StrictInv (newChapterState st title id) := by
  obtain ⟨h1, h2⟩ := hInv
  constructor
  · intro c hc
    simp only [newChapterState] at hc
    rcases List.mem_append.mp hc with h | h
    · exact h1 c h
    · cases ha : st.active with
      | none => rw [ha] at h; simp at h
      | some a =>
        rw [ha] at h h2
        simp only [List.mem_singleton] at h
        rw [h]
        exact chapterStrict_closeActive a h2.1 h2.2.1 h2.2.2
  · show (match (newChapterState st title id).active with
      | none => True
      | some a => _)
    simp only [newChapterState]
    exact ⟨rfl, List.chain'_nil, by simp⟩

theorem StrictInv_sectionHeading (st : PState) (level : Nat) (text id : String)
    (hInv : StrictInv st) : StrictInv (sectionHeadingState st level text id) := by
  obtain ⟨h1, h2⟩ := hInv
  unfold sectionHeadingState
  have key : ∀ st1 : PState, st1.closed = st.closed →
      (match st1.active with
       | none => True
       | some a =>
         strictRoot a.subs = true ∧
         List.Chain' (fun f g => g.level < f.level) a.stack ∧
         ∀ f ∈ a.stack, frameOk f = true) →
      StrictInv (pushBlockSt (.heading level text id)
        { st1 with used := st1.used ++ [id] }) := by
    intro st1 hclosed hact
    constructor
    · rw [pushBlockSt_closed]
      show ∀ c ∈ st1.closed, _
      rw [hclosed]
      exact h1
    · rw [pushBlockSt_active]
      cases ha1 : st1.active with
      | none => trivial
      | some a' =>
        rw [ha1] at hact
        simpa using hact
  cases ha : st.active with
  | none =>
    dsimp only
    refine key st rfl ?_
    rw [ha]
    trivial
  | some a =>
    dsimp only
    rw [ha] at h2
    by_cases h3' : 3 ≤ level
    · rw [if_pos h3']
      refine key _ rfl ?_
      have hp := popGE_ok level a.stack a.subs h2.2.1 h2.2.2 h2.1
      refine ⟨hp.2.2.1, ?_, ?_⟩
      · show List.Chain' _ (_ :: (popGE level a.stack a.subs).1)
        rw [List.chain'_cons']
        exact ⟨hp.2.2.2, hp.1⟩
      · intro f hf
        rcases List.mem_cons.mp hf with h | h
        · rw [h]
          simp [frameOk, listStrictUnder]
        · exact hp.2.1 f h
    · rw [if_neg h3']
      refine key st rfl ?_
      rw [ha]
      exact h2

theorem StrictInv_parseLines (fuel : Nat) (lines : List String) (pos : Nat)
    (st : PState) (hInv : StrictInv st) : StrictInv (parseLines fuel lines pos st) :=
  parseLines_preserves StrictInv StrictInv_push
    (fun st title h => StrictInv_newChapter st title _ h)
    (fun st level text _pos _ h => StrictInv_sectionHeading st level text _ h)
    fuel lines pos st hInv

theorem parseMarkdown_strict (md : String) :
    outlineStrict (parseMarkdown md) = true := by
  have hInit : StrictInv ⟨[], [], none, []⟩ := by
    constructor
    · intro c hc; simp at hc
    · trivial
  have h := StrictInv_parseLines (splitLines (normalizeNewlines md)).length
    (splitLines (normalizeNewlines md)) 0 ⟨[], [], none, []⟩ hInit
  set stFin := parseLines (splitLines (normalizeNewlines md)).length
    (splitLines (normalizeNewlines md)) 0 (⟨[], [], none, []⟩ : PState) with hst
  have heq : parseMarkdown md =
      { introBlocks := stFin.intro,
        chapters := stFin.closed ++
          (match stFin.active with | some a => [closeActive a] | none => []) } := rfl
  rw [heq]
  simp only [outlineStrict, List.all_eq_true]
  intro c hc
  simp only [List.mem_append] at hc
  rcases hc with hcl | hact
  · exact h.1 c hcl
  · cases hA : stFin.active with
    | none => rw [hA] at hact; simp at hact
    | some a =>
      rw [hA] at hact
      simp only [List.mem_singleton] at hact
      have h2 := h.2
      rw [hA] at h2
      rw [hact]
      exact chapterStrict_closeActive a h2.1 h2.2.1 h2.2.2

/-! ## Lemmas: TOC depth equals tree depth -/

theorem tocRenderDepths_eq_subsectionDepths :
    ∀ (f : SubForest) (d : Nat), tocRenderDepths f d = subsectionDepths f d := by
  have H : ∀ n (f : SubForest), forestSize f = n →
      ∀ d, tocRenderDepths f d = subsectionDepths f d := by
    intro n
    induction n using Nat.strong_induction_on with
    | _ n ih =>
      intro f hn d
      cases f with
      | nil => rfl
      | cons s rest =>
        cases s with
        | mk id lvl title children =>
          have hsz : forestSize (.cons (.mk id lvl title children) rest) =
              1 + forestSize children + forestSize rest := rfl
          have hch : ∀ d', tocRenderDepths children d' = subsectionDepths children d' :=
            ih (forestSize children) (by omega) children rfl
          have hrest : ∀ d', tocRenderDepths rest d' = subsectionDepths rest d' :=
            ih (forestSize rest) (by omega) rest rfl
          cases children with
          | nil =>
            show (id, d) :: ([] ++ tocRenderDepths rest d) =
              (id, d) ::
                (subsectionDepths SubForest.nil (d + 1) ++ subsectionDepths rest d)
            simp [subsectionDepths, hrest]
          | cons c cs =>
            show (id, d) ::
                (tocRenderDepths (SubForest.cons c cs) (d + 1) ++
                  tocRenderDepths rest d) =
              (id, d) ::
                (subsectionDepths (SubForest.cons c cs) (d + 1) ++
                  subsectionDepths rest d)
            rw [hch, hrest]
  intro f d
  exact H (forestSize f) f rfl d

/-! ## Lemmas: documents without level-2 headings -/

theorem scanCode_sublist : ∀ ls : List String, (scanCode ls).2.1.Sublist ls := by
  intro ls
  induction ls with
  | nil => simp [scanCode]
  | cons l rest ih =>
    by_cases h : isFenceStart (jsTrim l)
    · simp [scanCode, h]
    · simp only [scanCode, if_neg h]
      rcases hs : scanCode rest with ⟨cs, r, n⟩
      rw [hs] at ih
      exact ih.cons l

theorem scanItems_sublist (m : String → Bool) (strip : String → String) :
    ∀ ls : List String, (scanItems m strip ls).2.1.Sublist ls := by
  intro ls
  induction ls with
  | nil => simp [scanItems]
  | cons l rest ih =>
    by_cases h : m (jsTrim l)
    · simp only [scanItems, if_pos h]
      rcases hs : scanItems m strip rest with ⟨is, r, n⟩
      rw [hs] at ih
      exact ih.cons l
    · simp [scanItems, if_neg h]

theorem scanPara_sublist : ∀ ls : List String, (scanPara ls).2.1.Sublist ls := by
  intro ls
  induction ls with
  | nil => simp [scanPara]
  | cons l rest ih =>
    by_cases hb : jsTrim l = ""
    · simp [scanPara, hb]
    · by_cases hbd : isBoundary (jsTrim l)
      · simp [scanPara, hb, hbd]
      · simp only [scanPara, if_neg hb, if_neg hbd]
        rcases hs : scanPara rest with ⟨ps, r, n⟩
        rw [hs] at ih
        exact ih.cons l

theorem sectionHeadingState_none (st : PState) (level : Nat) (text id : String)
    (h2 : st.active = none) :
    (sectionHeadingState st level text id).active = none ∧
    (sectionHeadingState st level text id).closed = st.closed := by
  unfold sectionHeadingState
  rw [h2]
  dsimp only
  constructor
  · rw [pushBlockSt_active]
    have hrec : ({ st with used := st.used ++ [id] } : PState).active = st.active := rfl
    rw [hrec, h2]
    rfl
  · rw [pushBlockSt_closed]

theorem noChap_parseLines (fuel : Nat) :
    ∀ lines pos st, (∀ l ∈ lines, isLevel2Line l = false) →
      st.closed = [] → st.active = none →
      (parseLines fuel lines pos st).closed = [] ∧
        (parseLines fuel lines pos st).active = none := by
  induction fuel with
  | zero => intro lines pos st _ h1 h2; simpa [parseLines] using ⟨h1, h2⟩
  | succ fuel ih =>
    intro lines pos st hL h1 h2
    cases lines with
    | nil => simpa [parseLines] using ⟨h1, h2⟩
    | cons l rest =>
      have hLrest : ∀ l' ∈ rest, isLevel2Line l' = false :=
        fun l' h => hL l' (List.mem_cons_of_mem l h)
      rw [parseLines]
      by_cases hblank : jsTrim l = ""
      · rw [if_pos hblank]; exact ih _ _ _ hLrest h1 h2
      · rw [if_neg hblank]
        cases hhead : parseHeading (jsTrim l) with
        | some lt =>
          obtain ⟨level, text⟩ := lt
          by_cases hl2 : level = 2
          · exfalso
            have := hL l (List.mem_cons_self l rest)
            rw [isLevel2Line, hhead, hl2] at this
            exact Bool.noConfusion this
          · simp only [if_neg hl2]
            apply ih _ _ _ hLrest
            · rw [(sectionHeadingState_none st level text _ h2).2]
              exact h1
            · exact (sectionHeadingState_none st level text _ h2).1
        | none =>
          have hpush : ∀ (b : Block),
              (pushBlockSt b st).closed = [] ∧ (pushBlockSt b st).active = none := by
            intro b
            rw [pushBlockSt_closed, pushBlockSt_active, h2]
            exact ⟨h1, rfl⟩
          have hmem : ∀ (r : List String), r.Sublist rest →
              ∀ l' ∈ r, isLevel2Line l' = false :=
            fun r hr l' h => hLrest l' (hr.mem h)
          by_cases hfence : isFenceStart (jsTrim l)
          · simp only [if_pos hfence]
            rcases hs : scanCode rest with ⟨cs, r, n⟩
            have hsub := scanCode_sublist rest
            rw [hs] at hsub
            exact ih _ _ _ (hmem r hsub) (hpush _).1 (hpush _).2
          · simp only [if_neg hfence]
            by_cases hul : isUlStart (jsTrim l)
            · simp only [if_pos hul]
              rcases hs : scanItems isUlStart stripUlMarker (l :: rest) with ⟨is, r, n⟩
              have hsub := scanItems_sublist isUlStart stripUlMarker (l :: rest)
              rw [hs] at hsub
              have : ∀ l' ∈ r, isLevel2Line l' = false := fun l' h => hL l' (hsub.mem h)
              exact ih _ _ _ this (hpush _).1 (hpush _).2
            · simp only [if_neg hul]
              by_cases hol : isOlStart (jsTrim l)
              · simp only [if_pos hol]
                rcases hs : scanItems isOlStart stripOlMarker (l :: rest) with ⟨is, r, n⟩
                have hsub := scanItems_sublist isOlStart stripOlMarker (l :: rest)
                rw [hs] at hsub
                have : ∀ l' ∈ r, isLevel2Line l' = false := fun l' h => hL l' (hsub.mem h)
                exact ih _ _ _ this (hpush _).1 (hpush _).2
              · simp only [if_neg hol]
                by_cases hq : isQuoteStart (jsTrim l)
                · simp only [if_pos hq]
                  rcases hs : scanItems isQuoteStart stripQuoteMarker (l :: rest)
                    with ⟨is, r, n⟩
                  have hsub := scanItems_sublist isQuoteStart stripQuoteMarker (l :: rest)
                  rw [hs] at hsub
                  have : ∀ l' ∈ r, isLevel2Line l' = false :=
                    fun l' h => hL l' (hsub.mem h)
                  exact ih _ _ _ this (hpush _).1 (hpush _).2
                · simp only [if_neg hq]
                  rcases hs : scanPara rest with ⟨ps, r, n⟩
                  have hsub := scanPara_sublist rest
                  rw [hs] at hsub
                  exact ih _ _ _ (hmem r hsub) (hpush _).1 (hpush _).2

theorem parseMarkdown_noChapters (md : String)
    (h : hasChapterHeading md = false) : (parseMarkdown md).chapters = [] := by
  have hL : ∀ l ∈ splitLines (normalizeNewlines md), isLevel2Line l = false := by
    intro l hl
    have := List.any_eq_false.mp h
    exact Bool.eq_false_iff.mpr (this l hl)
  have hfin := noChap_parseLines (splitLines (normalizeNewlines md)).length
    (splitLines (normalizeNewlines md)) 0 ⟨[], [], none, []⟩ hL rfl rfl
  show (parseLines (splitLines (normalizeNewlines md)).length
      (splitLines (normalizeNewlines md)) 0 ⟨[], [], none, []⟩).closed ++
    (match (parseLines (splitLines (normalizeNewlines md)).length
      (splitLines (normalizeNewlines md)) 0 ⟨[], [], none, []⟩).active with
     | some a => [closeActive a] | none => []) = []
  rw [hfin.1, hfin.2]
  rfl

/-! ## Lemmas: the corpus sort -/

theorem sortPosts_cons (x : Post) (xs : List Post) :
    sortPosts (x :: xs) = insertPostDesc x (sortPosts xs) := rfl

theorem mem_insertPostDesc {a p : Post} :
    ∀ {l : List Post}, a ∈ insertPostDesc p l ↔ a = p ∨ a ∈ l := by
  intro l
  induction l with
  | nil => simp [insertPostDesc]
  | cons q qs ih =>
    by_cases h : dateMillis p.date < dateMillis q.date
    · simp only [insertPostDesc, if_pos h, List.mem_cons, ih]
      tauto
    · simp only [insertPostDesc, if_neg h, List.mem_cons]

theorem insertPostDesc_pairwise (p : Post) (l : List Post)
    (h : List.Pairwise (fun a b => dateMillis b.date ≤ dateMillis a.date) l) :
    List.Pairwise (fun a b => dateMillis b.date ≤ dateMillis a.date)
      (insertPostDesc p l) := by
  induction l with
  | nil => simp [insertPostDesc]
  | cons q qs ih =>
    rcases List.pairwise_cons.mp h with ⟨hq, hqs⟩
    by_cases hlt : dateMillis p.date < dateMillis q.date
    · rw [insertPostDesc, if_pos hlt]
      refine List.pairwise_cons.mpr ⟨?_, ih hqs⟩
      intro b hb
      rcases mem_insertPostDesc.mp hb with hb | hb
      · rw [hb]; omega
      · exact hq b hb
    · rw [insertPostDesc, if_neg hlt]
      refine List.pairwise_cons.mpr ⟨?_, h⟩
      intro b hb
      rcases List.mem_cons.mp hb with hb | hb
      · rw [hb]; omega
      · have := hq b hb; omega

theorem sortPosts_pairwise (posts : List Post) :
    List.Pairwise (fun a b => dateMillis b.date ≤ dateMillis a.date)
      (sortPosts posts) := by
  induction posts with
  | nil => simp [sortPosts]
  | cons x xs ih => rw [sortPosts_cons]; exact insertPostDesc_pairwise x _ ih

theorem filter_insertPostDesc (p : Post) (k : Int) :
    ∀ l : List Post,
      (insertPostDesc p l).filter (fun q => dateMillis q.date == k) =
        if dateMillis p.date == k then
          p :: l.filter (fun q => dateMillis q.date == k)
        else l.filter (fun q => dateMillis q.date == k) := by
  intro l
  induction l with
  | nil =>
    by_cases hp : dateMillis p.date == k <;> simp [insertPostDesc, hp]
  | cons q qs ih =>
    by_cases hlt : dateMillis p.date < dateMillis q.date
    · rw [insertPostDesc, if_pos hlt]
      by_cases hp : dateMillis p.date == k
      · have hpk : dateMillis p.date = k := by simpa using hp
        have hq : (dateMillis q.date == k) = false := by
          simp only [beq_eq_false_iff_ne, ne_eq]
          omega
        simp only [List.filter_cons, hq, ih, hp, if_pos, if_true]
        simp [hp]
      · have hp' : (dateMillis p.date == k) = false := by
          simpa using hp
        simp only [List.filter_cons, ih, hp']
        simp
    · rw [insertPostDesc, if_neg hlt]
      by_cases hp : dateMillis p.date == k
      · simp [List.filter_cons, hp]
      · have hp' : (dateMillis p.date == k) = false := by simpa using hp
        simp [List.filter_cons, hp']

theorem sortPosts_stable (posts : List Post) (k : Int) :
    (sortPosts posts).filter (fun q => dateMillis q.date == k) =
      posts.filter (fun q => dateMillis q.date == k) := by
  induction posts with
  | nil => rfl
  | cons x xs ih =>
    rw [sortPosts_cons, filter_insertPostDesc, List.filter_cons]
    by_cases hx : dateMillis x.date == k
    · simp [hx, ih]
    · have hx' : (dateMillis x.date == k) = false := by simpa using hx
      simp [hx', ih]

/-! ## Lemmas: duplicate output paths in `collectPosts` -/

theorem processMeta_urlPath {c s content : String} {post : Post} {body : String}
    (h : processMeta c s content = .ok (post, body)) :
    post.urlPath = c ++ "/" ++ s ++ "/" := by
  simp only [processMeta, bind, Except.bind] at h
  repeat' split at h
  all_goals simp_all
  simp only [pure, Except.pure, Except.ok.injEq, Prod.mk.injEq] at h
  rw [← h.1]

theorem collectPosts_duplicate (cfg : Config) (c p d1 d2 : String)
    (post1 post2 : Post) (body1 body2 : String)
    (h1 : processMeta c p d1 = .ok (post1, body1))
    (h2 : processMeta c p d2 = .ok (post2, body2)) :
    collectPosts cfg [(c, [(p, some d1), (p, some d2)])] =
      (.error (.duplicateOutputPath post2.urlPath),
       [("build/" ++ c ++ "/" ++ p ++ "/index.html", buildPostHtml post1 cfg body1)]) := by
  have hu1 := processMeta_urlPath h1
  have hu2 := processMeta_urlPath h2
  have hup : post2.urlPath = post1.urlPath := by rw [hu1, hu2]
  simp only [collectPosts, collectCategories, collectInCategory, h1, h2, hup]
  simp [List.elem]

/-! ## Lemmas: the positional fallback family -/

theorem mkBody_data_succ (k : Nat) :
    (mkSectionFallbackBody (k + 1)).data =
      'x' :: '\n' :: (mkSectionFallbackBody k).data := rfl

theorem mkBody_no_cr : ∀ k : Nat, '\r' ∉ (mkSectionFallbackBody k).data := by
  intro k
  induction k with
  | zero => decide
  | succ k ih =>
    rw [mkBody_data_succ]
    intro h
    rcases List.mem_cons.mp h with h | h
    · exact absurd h (by decide)
    · rcases List.mem_cons.mp h with h | h
      · exact absurd h (by decide)
      · exact ih h

theorem replaceAllGo_no_cr (fuel : Nat) :
    ∀ cs : List Char, '\r' ∉ cs →
      replaceAllGo fuel cs "\r\n".data "\n".data = cs := by
  induction fuel with
  | zero => intro cs _; rfl
  | succ fuel ih =>
    intro cs hcs
    cases cs with
    | nil => rfl
    | cons c rest =>
      have hc : c ≠ '\r' := fun h => hcs (h ▸ List.mem_cons_self c rest)
      have hpre : ("\r\n".data.isPrefixOf (c :: rest)) = false := by
        show (['\r', '\n'].isPrefixOf (c :: rest)) = false
        simp [List.isPrefixOf]
        intro h
        exact absurd h.symm hc
      rw [replaceAllGo, hpre]
      simp only [Bool.false_eq_true, if_false]
      rw [ih rest (fun h => hcs (List.mem_cons_of_mem c h))]

theorem normalizeNewlines_mkBody (k : Nat) :
    normalizeNewlines (mkSectionFallbackBody k) = mkSectionFallbackBody k := by
  unfold normalizeNewlines jsReplaceAll
  rw [replaceAllGo_no_cr _ _ (mkBody_no_cr k)]

theorem splitNl_line (cs : List Char) :
    splitNl ('x' :: '\n' :: cs) = "x" :: splitNl cs := by
  simp [splitNl]

theorem splitLines_mkBody : ∀ k : Nat,
    splitLines (mkSectionFallbackBody k) = List.replicate k "x" ++ ["### $$$"] := by
  intro k
  induction k with
  | zero => decide
  | succ k ih =>
    show splitNl (mkSectionFallbackBody (k + 1)).data = _
    rw [mkBody_data_succ, splitNl_line]
    rw [show splitNl (mkSectionFallbackBody k).data =
      splitLines (mkSectionFallbackBody k) from rfl, ih]
    simp [List.replicate_succ]

theorem scanPara_xpre : ∀ m : Nat,
    scanPara (List.replicate m "x" ++ ["### $$$"]) =
      (List.replicate m "x", ["### $$$"], m) := by
  intro m
  induction m with
  | zero => decide
  | succ m ih =>
    rw [List.replicate_succ, List.cons_append, scanPara]
    rw [if_neg (by decide : ¬ jsTrim "x" = "")]
    rw [if_neg (by decide : ¬ isBoundary (jsTrim "x") = true)]
    rw [ih]
    dsimp only
    rw [show jsTrim "x" = "x" from by decide]

theorem uniqueIdFrom_nil (pref text fb : String) (hslug : slugify text = "") :
    uniqueIdFrom [] pref text fb = pref ++ "-" ++ fb := by
  simp [uniqueIdFrom, hslug, candidateIds]

theorem parseLines_nil (fuel pos : Nat) (st : PState) :
    parseLines fuel [] pos st = st := by
  cases fuel <;> simp [parseLines]

theorem parseLines_heading3_step (fuel pos : Nat) (st : PState) :
    parseLines (fuel + 1) ["### $$$"] pos st =
      parseLines fuel [] (pos + 1)
        (sectionHeadingState st 3 "$$$"
          (uniqueIdFrom st.used "section" "$$$" (natToString (pos + 1)))) := by
  rw [parseLines]
  simp only [(by decide : jsTrim "### $$$" = "### $$$")]
  rw [if_neg (by decide : ¬ ("### $$$" : String) = "")]
  simp only [(by decide : parseHeading "### $$$" = some (3, "$$$"))]
  rw [if_neg (by decide : ¬ (3 : Nat) = 2)]

theorem parseLines_xpara_step (fuel : Nat) (rest : List String) (pos : Nat)
    (st : PState) :
    parseLines (fuel + 1) ("x" :: rest) pos st =
      parseLines fuel (scanPara rest).2.1 (pos + 1 + (scanPara rest).2.2)
        (pushBlockSt (.p (String.intercalate " " ("x" :: (scanPara rest).1))) st) := by
  rw [parseLines]
  simp only [(by decide : jsTrim "x" = "x")]
  rw [if_neg (by decide : ¬ ("x" : String) = "")]
  simp only [(by decide : parseHeading "x" = none)]
  rw [if_neg (by decide : ¬ isFenceStart "x" = true)]
  rw [if_neg (by decide : ¬ isUlStart "x" = true)]
  rw [if_neg (by decide : ¬ isOlStart "x" = true)]
  rw [if_neg (by decide : ¬ isQuoteStart "x" = true)]

theorem sectionHeadingState_intro_none (st : PState) (level : Nat) (text id : String)
    (h2 : st.active = none) :
    (sectionHeadingState st level text id).intro =
      st.intro ++ [.heading level text id] := by
  unfold sectionHeadingState
  rw [h2]
  dsimp only
  have hA : ({ st with used := st.used ++ [id] } : PState).active = none := h2
  simp [pushBlockSt, hA, h2]

theorem sectionFallback_ids (k : Nat) :
    blockHeadingIds (parseMarkdown (mkSectionFallbackBody k)).introBlocks =
      ["section-" ++ natToString (k + 1)] := by
  have hlines : splitLines (normalizeNewlines (mkSectionFallbackBody k)) =
      List.replicate k "x" ++ ["### $$$"] := by
    rw [normalizeNewlines_mkBody, splitLines_mkBody]
  have hintro : (parseMarkdown (mkSectionFallbackBody k)).introBlocks =
      (parseLines (List.replicate k "x" ++ ["### $$$"]).length
        (List.replicate k "x" ++ ["### $$$"]) 0 ⟨[], [], none, []⟩).intro := by
    unfold parseMarkdown
    rw [hlines]
  rw [hintro]
  have hlen : (List.replicate k "x" ++ ["### $$$"]).length = k + 1 := by simp
  rw [hlen]
  cases k with
  | zero =>
    rw [show List.replicate 0 "x" ++ ["### $$$"] = ["### $$$"] from rfl]
    rw [parseLines_heading3_step, parseLines_nil]
    rw [sectionHeadingState_intro_none _ _ _ _ rfl]
    decide
  | succ k' =>
    rw [List.replicate_succ, List.cons_append, parseLines_xpara_step, scanPara_xpre]
    dsimp only
    rw [parseLines_heading3_step, parseLines_nil]
    have hactive : (pushBlockSt
        (.p (String.intercalate " " ("x" :: List.replicate k' "x")))
        (⟨[], [], none, []⟩ : PState)).active = none := rfl
    rw [sectionHeadingState_intro_none _ _ _ _ hactive]
    have hused : (pushBlockSt
        (.p (String.intercalate " " ("x" :: List.replicate k' "x")))
        (⟨[], [], none, []⟩ : PState)).used = [] := rfl
    rw [hused]
    rw [uniqueIdFrom_nil _ _ _ (by decide : slugify "$$$" = "")]
    have hintro0 : (pushBlockSt
        (.p (String.intercalate " " ("x" :: List.replicate k' "x")))
        (⟨[], [], none, []⟩ : PState)).intro =
        [.p (String.intercalate " " ("x" :: List.replicate k' "x"))] := rfl
    rw [hintro0]
    simp only [blockHeadingIds, List.filterMap_append, List.filterMap]
    have : (0 : Nat) + 1 + k' + 1 = k' + 1 + 1 := by omega
    rw [this]
    rfl

/-! ## Lemmas: substring containment and outline prefixes -/

theorem strContains_of_infix {s pat : String} (h : pat.data <:+: s.data) :
    strContains s pat = true := by
  rcases List.infix_iff_prefix_suffix.mp h with ⟨t, hpre, hsuf⟩
  unfold strContains
  rw [List.any_eq_true]
  exact ⟨t, (List.mem_tails t s.data).mpr hsuf, List.isPrefixOf_iff_prefix.mpr hpre⟩

theorem outlineSectionIds_final (st : PState) :
    outlineSectionIds
      { introBlocks := st.intro,
        chapters := st.closed ++
          (match st.active with | some a => [closeActive a] | none => []) } =
      stateSectionIds st := by
  cases ha : st.active <;>
    simp [outlineSectionIds, stateSectionIds, ha, closeActive, List.append_assoc]

theorem parseMarkdown_prefixes (md : String) :
    (∀ c ∈ (parseMarkdown md).chapters, "chapter-".data <+: c.id.data) ∧
    (∀ i ∈ outlineSectionIds (parseMarkdown md), "section-".data <+: i.data) := by
  have hInit : PrefixInv ⟨[], [], none, []⟩ := by
    refine ⟨by simp, trivial, ?_⟩
    intro i hi
    simp [stateSectionIds, blockHeadingIds] at hi
  have h := PrefixInv_parseLines (splitLines (normalizeNewlines md)).length
    (splitLines (normalizeNewlines md)) 0 ⟨[], [], none, []⟩ hInit
  set stFin := parseLines (splitLines (normalizeNewlines md)).length
    (splitLines (normalizeNewlines md)) 0 (⟨[], [], none, []⟩ : PState) with hst
  have heq : parseMarkdown md =
      { introBlocks := stFin.intro,
        chapters := stFin.closed ++
          (match stFin.active with | some a => [closeActive a] | none => []) } := rfl
  obtain ⟨h1, h2, h3⟩ := h
  constructor
  · intro c hc
    rw [heq] at hc
    simp only [List.mem_append] at hc
    rcases hc with hcl | hact
    · exact h1 c hcl
    · cases hA : stFin.active with
      | none => rw [hA] at hact; simp at hact
      | some a =>
        rw [hA] at hact h2
        simp only [List.mem_singleton] at hact
        rw [hact]
        exact h2
  · intro i hi
    rw [heq, outlineSectionIds_final] at hi
    exact h3 i hi

/-! ## The claims -/

/-- C1: Every anchor id assigned by `parseMarkdown` is unique within the
document: after the collision-suffix pass no two headings (chapter or
section) share an id; in particular two headings titled "Overview" get
`section-overview` and `section-overview-2`. -/
theorem claim_C1 :
    (∀ md : String, (outlineIds (parseMarkdown md)).Nodup) ∧
    outlineIds (parseMarkdown "### Overview\n### Overview") =
      ["section-overview", "section-overview-2"] :=
  ⟨parseMarkdown_ids_nodup, by decide⟩

/-- C2 (counterexample): the claim says the anchor base is the slug
prefixed with exactly `chapter-`, so `## First` would get `chapter-first`;
the code prefixes `chapter-N-` (N the 1-based chapter ordinal) and yields
`chapter-1-first`. -/
theorem claim_C2_counterexample :
    (parseMarkdown "## First\ntext").chapters.map Chapter.id = ["chapter-1-first"] ∧
    ("chapter-1-first" : String) ≠ "chapter-first" := by
  constructor
  · decide
  · decide

/-- C2 (amended): a level-2 heading's anchor id base is
`chapter-N-<slug>` where N is the chapter's 1-based ordinal (so every
chapter id starts with `chapter-`), and other headings use
`section-<slug>`; the example document `## First` + `text` yields one
chapter titled "First" with anchor `chapter-1-first`, an empty intro and
the single paragraph block `text`. -/
theorem claim_C2 :
    ((parseMarkdown "## First\ntext").introBlocks = [] ∧
     (parseMarkdown "## First\ntext").chapters.map Chapter.title = ["First"] ∧
     (parseMarkdown "## First\ntext").chapters.map Chapter.id = ["chapter-1-first"] ∧
     (parseMarkdown "## First\ntext").chapters.map Chapter.blocks = [[Block.p "text"]]) ∧
    (∀ md : String,
      (∀ c ∈ (parseMarkdown md).chapters, "chapter-".data <+: c.id.data) ∧
      (∀ i ∈ outlineSectionIds (parseMarkdown md), "section-".data <+: i.data)) ∧
    (parseMarkdown "## A\n## B").chapters.map Chapter.id =
      ["chapter-1-a", "chapter-2-b"] :=
  ⟨by refine ⟨?_, ?_, ?_, ?_⟩ <;> decide, parseMarkdown_prefixes, by decide⟩

/-- C2 witness: the amended claim applied to the example document; the
single chapter's id carries the `chapter-` prefix. -/
theorem claim_C2_witness :
    "chapter-".data <+: ("chapter-1-first" : String).data :=
  (claim_C2.2.1 "## First\ntext").1
    ⟨"First", "chapter-1-first", [Block.p "text"], []⟩ (List.Mem.head _)

/-- C3: in every chapter the subsection tree's levels strictly increase
from parent to child, and the depth at which `renderTocSubsections`
renders each entry equals the entry's depth in the subsection tree. -/
theorem claim_C3 :
    (∀ md : String, outlineStrict (parseMarkdown md) = true) ∧
    (∀ (f : SubForest) (d : Nat), tocRenderDepths f d = subsectionDepths f d) :=
  ⟨parseMarkdown_strict, tocRenderDepths_eq_subsectionDepths⟩

/-- C4 (counterexample): link targets are not escaped exactly once — a
target containing `&` is escaped both by the initial `escapeHtml` pass and
again by `escapeAttr` at substitution time, yielding `&amp;amp;`. -/
theorem claim_C4_counterexample :
    renderInline "[x](http://a/&)" = "<a href=\"http://a/&amp;amp;\">x</a>" ∧
    renderInline "[x](http://a/&)" ≠ "<a href=\"http://a/&amp;\">x</a>" := by
  constructor
  · decide
  · decide

/-- C4 (amended): `renderInline` applies escape, code-span extraction,
links, bold, italic and code-span restoration in that order; code-span
contents and link labels are escaped exactly once, but link targets are
escaped a second time by `escapeAttr` at substitution. -/
theorem claim_C4 :
    (∀ raw : String,
      renderInline raw =
        restorePass (extractCodeSpans (escapeHtml raw)).2
          (italicPass (boldPass (linkPass (extractCodeSpans (escapeHtml raw)).1)))) ∧
    renderInline "`&`" = "<code>&amp;</code>" ∧
    renderInline "[x&y](http://a/b)" = "<a href=\"http://a/b\">x&amp;y</a>" ∧
    renderInline "[x](http://a/&)" = "<a href=\"http://a/&amp;amp;\">x</a>" := by
  refine ⟨?_, by decide, by decide, by decide⟩
  intro raw
  rcases he : extractCodeSpans (escapeHtml raw) with ⟨esc, snips⟩
  simp [renderInline, he]

/-- C5: `renderInline` is injection-safe: `<script>&</script>` renders as
fully escaped text with no `<` left, and a code span containing `<b>`
renders as literal escaped angle brackets inside `<code>`. -/
theorem claim_C5 :
    renderInline "<script>&</script>" = "&lt;script&gt;&amp;&lt;/script&gt;" ∧
    (renderInline "<script>&</script>").data.all (fun c => c ≠ '<') = true ∧
    renderInline "`<b>`" = "<code>&lt;b&gt;</code>" := by
  refine ⟨by decide, by decide, by decide⟩

set_option maxRecDepth 40000 in
/-- C6: the corpus index is sorted descending by date with ties kept in
encounter order (stable), and the RSS feed lists its items in the same
order; the 2026-02-01 post sorts before the 2026-01-01 post in both. -/
theorem claim_C6 :
    (∀ posts : List Post,
      List.Pairwise (fun a b => dateMillis b.date ≤ dateMillis a.date)
        (sortPosts posts)) ∧
    (∀ (posts : List Post) (k : Int),
      (sortPosts posts).filter (fun q => dateMillis q.date == k) =
        posts.filter (fun q => dateMillis q.date == k)) ∧
    sortPosts [postJan, postFeb] = [postFeb, postJan] ∧
    String.intercalate "\n"
        ((sortPosts [postJan, postFeb]).map
          (rssItem (stripTrailingSlash cfgDemo.siteUrl))) =
      rssItem (stripTrailingSlash cfgDemo.siteUrl) postFeb ++ "\n" ++
        rssItem (stripTrailingSlash cfgDemo.siteUrl) postJan ∧
    renderRss cfgDemo (sortPosts [postJan, postFeb]) =
      renderRss cfgDemo [postFeb, postJan] :=
  ⟨sortPosts_pairwise, sortPosts_stable, by decide, by decide, by decide⟩

set_option maxRecDepth 40000 in
/-- C7: a body without a level-2 heading yields an outline with no
chapters (every block lands in the intro sequence); the TOC shows the
single "No chapters" entry; the aside markup is empty iff `showContents`
is unset, and when it is set the assembled page contains the aside. -/
theorem claim_C7 (md : String) (post : Post) (config : Config)
    (h : hasChapterHeading md = false) :
    (parseMarkdown md).chapters = [] ∧
    tocHtml post (parseMarkdown md).chapters =
      "            <li><a href=\"#\">No chapters</a></li>" ∧
    (∀ toc : String, tocAsideHtml post toc = "" ↔ post.showContents = false) ∧
    (post.showContents = true →
      strContains (buildPostHtml post config md)
        "<aside class=\"toc open\" aria-label=\"Table of contents\">" = true) := by
  have hch := parseMarkdown_noChapters md h
  refine ⟨hch, ?_, ?_, ?_⟩
  · rw [hch]; rfl
  · intro toc
    unfold tocAsideHtml
    cases hsc : post.showContents with
    | false => simp
    | true =>
      simp only [if_true]
      constructor
      · intro heq
        exfalso
        have hlen := congrArg String.length heq
        rw [String.length_append, String.length_append] at hlen
        have h1 : 0 < tocAsideOpen.length := by decide
        simp at hlen
        omega
      · intro hfalse
        exact absurd hfalse (by simp)
  · intro hsc
    apply strContains_of_infix
    obtain ⟨A, T, B, hEq, hT⟩ :
        ∃ A T B, buildPostHtml post config md = A ++ T ++ B ∧
          T = tocAsideHtml post (tocHtml post (parseMarkdown md).chapters) :=
      ⟨_, _, _, rfl, rfl⟩
    rw [hEq]
    have hdata : ((A ++ T ++ B : String)).data = A.data ++ (T.data ++ B.data) := by
      simp [strData_append, List.append_assoc]
    rw [hdata]
    have hinT : ("<aside class=\"toc open\" aria-label=\"Table of contents\">"
        : String).data <:+: T.data := by
      rw [hT]
      unfold tocAsideHtml
      rw [hsc]
      simp only [if_true]
      have h1 : ("<aside class=\"toc open\" aria-label=\"Table of contents\">"
          : String).data <:+: tocAsideOpen.data := by decide
      have hdata2 : ((tocAsideOpen ++ tocHtml post (parseMarkdown md).chapters ++
          tocAsideClose : String)).data =
          tocAsideOpen.data ++ ((tocHtml post (parseMarkdown md).chapters).data ++
            tocAsideClose.data) := by
        simp [strData_append, List.append_assoc]
      rw [hdata2]
      exact h1.trans (List.prefix_append _ _).isInfix
    exact (hinT.trans (List.prefix_append _ _).isInfix).trans
      (List.suffix_append _ _).isInfix

/-- C7 witness: applied to a plain one-paragraph document with a post
that requests the table of contents. -/
theorem claim_C7_witness :
    (parseMarkdown "just text").chapters = [] ∧
    tocHtml postJan (parseMarkdown "just text").chapters =
      "            <li><a href=\"#\">No chapters</a></li>" ∧
    (∀ toc : String, tocAsideHtml postJan toc = "" ↔ postJan.showContents = false) ∧
    (postJan.showContents = true →
      strContains (buildPostHtml postJan cfgDemo "just text")
        "<aside class=\"toc open\" aria-label=\"Table of contents\">" = true) :=
  claim_C7 "just text" postJan cfgDemo (by decide)

/-- C8: two source documents resolving to the same (category-slug,
post-slug) pair make the build fail with the duplicate-output-path error;
the only write performed is the first document's complete page — nothing
is written for the second. -/
theorem claim_C8 (cfg : Config) (c p d1 d2 : String)
    (post1 post2 : Post) (body1 body2 : String)
    (h1 : processMeta c p d1 = .ok (post1, body1))
    (h2 : processMeta c p d2 = .ok (post2, body2)) :
    collectPosts cfg [(c, [(p, some d1), (p, some d2)])] =
      (.error (.duplicateOutputPath post2.urlPath),
       [("build/" ++ c ++ "/" ++ p ++ "/index.html", buildPostHtml post1 cfg body1)]) :=
  collectPosts_duplicate cfg c p d1 d2 post1 post2 body1 body2 h1 h2

set_option maxRecDepth 40000 in
/-- C8 witness: the duplicate-path failure on a concrete document pair. -/
theorem claim_C8_witness :
    collectPosts cfgDemo [("cat", [("post", some demoDoc), ("post", some demoDoc)])] =
      (.error (.duplicateOutputPath "cat/post/"),
       [("build/cat/post/index.html", buildPostHtml demoPost cfgDemo "hello")]) :=
  claim_C8 cfgDemo "cat" "post" demoDoc demoDoc demoPost demoPost "hello" "hello"
    (by rfl) (by rfl)

/-- C9 (counterexample): for a level-2 heading with an empty slug the
fallback token is the chapter ordinal, not the heading's 1-based line
position: `x`, blank, `## !!!` puts the heading at line 3 but yields
`chapter-1-1` (ordinal fallback `1`), not a position-based token `3`. -/
theorem claim_C9_counterexample :
    (parseMarkdown "x\n\n## !!!").chapters.map Chapter.id = ["chapter-1-1"] ∧
    ("chapter-1-1" : String) ≠ "chapter-1-3" ∧
    ("chapter-1-1" : String) ≠ "chapter-3" := by
  refine ⟨by decide, by decide, by decide⟩

/-- C9 (amended): a non-level-2 heading with empty slugified text falls
back to its 1-based position in the raw line stream (shown for a heading
preceded by `k` paragraph lines, any `k`), while a level-2 heading falls
back to the chapter's 1-based ordinal instead. -/
theorem claim_C9 :
    (∀ k : Nat,
      blockHeadingIds (parseMarkdown (mkSectionFallbackBody k)).introBlocks =
        ["section-" ++ natToString (k + 1)]) ∧
    (parseMarkdown "x\n\n## !!!").chapters.map Chapter.id = ["chapter-1-1"] ∧
    (parseMarkdown "## !!!\n## ???").chapters.map Chapter.id =
      ["chapter-1-1", "chapter-2-2"] :=
  ⟨sectionFallback_ids, by decide, by decide⟩

/-- C10: `renderBlock` clamps the emitted heading tag to h1-h4 — every
heading of level ≥ 4 renders exactly like a level-4 heading, so levels 5
and 6 produce `<h4>`; the parse keeps the original level in the stored
block and in the subsection tree. -/
theorem claim_C10 :
    (∀ (lvl : Nat) (text id : String), 4 ≤ lvl →
      renderBlock (.heading lvl text id) = renderBlock (.heading 4 text id)) ∧
    renderBlock (.heading 5 "S" "section-s") = "<h4 id=\"section-s\">S</h4>" ∧
    renderBlock (.heading 6 "T" "i") = "<h4 id=\"i\">T</h4>" ∧
    (parseMarkdown "## C\n##### S").chapters.map
        (fun c => c.blocks.map (fun b =>
          match b with
          | Block.heading lvl _ id => (id, lvl)
          | _ => ("", 0))) = [[("section-s", 5)]] ∧
    (parseMarkdown "## C\n##### S").chapters.flatMap
        (fun c => c.subsections.map (fun s => (s.id, s.level))) =
      [("section-s", 5)] := by
  refine ⟨?_, by decide, by decide, by decide, by decide⟩
  intro lvl text id h
  have hmin : min (max lvl 1) 4 = 4 := by omega
  simp [renderBlock, hmin]

/-- C10 witness: a level-5 heading block renders identically to a
level-4 one. -/
theorem claim_C10_witness :
    renderBlock (.heading 5 "T" "i") = renderBlock (.heading 4 "T" "i") :=
  claim_C10.1 5 "T" "i" (by decide)

end BuildContent
